import Mathlib

set_option maxRecDepth 8000

/-!
Verification development for the `receiver` desktop-streaming client.

The definitions below are shallow embeddings of the C sources:
bytes are `Nat` values below 256, machine integers are `Nat`/`Int`
with explicit `% 2^w` where overflow can occur, and the bit reader's
`longjmp` escape is an `Option` failure.
-/

namespace Receiver

/-- Shallow embedding of `struct Bitstream` from `mfx_stub/bitstream.h`:
a borrowed byte region (`data`, whose length plays the role of `size`),
a running bit `offset`, the emulation-prevention-byte counter
`epb_count`, and the 32-bit shift-register `cache`. -/
structure Bitstream where
  data : List Nat
  offset : Nat
  epb_count : Nat
  cache : Nat
  deriving Repr, DecidableEq

/-- `BitstreamCreate(a, b)`: zero-initialised reader over a byte region. -/
def BitstreamCreate (data : List Nat) : Bitstream :=
  { data := data, offset := 0, epb_count := 0, cache := 0 }

/-- The `repeat` loop of `BitstreamReadBit` (bitstream.c:26-34): load the byte
at `offset >> 3` into the cache; while the running offset is at least 24 bits
and the cache's low 24 bits equal `0x000003`, skip the loaded `0x03` (advance
the offset by 8, count one EPB) and load the following byte.  `none` models
the `longjmp` past-the-end escape.  The `fuel` argument only bounds the
iteration count for structural recursion: each iteration requires
`offset / 8 < data.length` and increases `offset / 8` by one, so with the
initial fuel `data.length - offset / 8` supplied by `loadByte` the bound is
never the reason a `none` is returned. -/
def loadByteAux : Nat → Bitstream → Option Bitstream
  | 0, _ => none
  | fuel + 1, bs =>
    if bs.offset / 8 < bs.data.length then
      let cache := (bs.cache * 256 + bs.data.getD (bs.offset / 8) 0) % 2 ^ 32
      if 24 ≤ bs.offset ∧ cache % 2 ^ 24 = 3 then
        loadByteAux fuel
          { bs with offset := bs.offset + 8, epb_count := bs.epb_count + 1,
                    cache := cache }
      else
        some { bs with cache := cache }
    else
      none

/-- Entry point of the cache-load loop with adequate fuel. -/
def loadByte (bs : Bitstream) : Option Bitstream :=
  loadByteAux (bs.data.length - bs.offset / 8) bs

/-- `BitstreamReadBit` (bitstream.c:22-38): on a byte boundary first run the
cache-load loop, then consume one bit (MSB first) from the cache. -/
def BitstreamReadBit (bs : Bitstream) : Option (Nat × Bitstream) :=
  let shift := 7 - bs.offset % 8
  if shift = 7 then
    match loadByte bs with
    | none => none
    | some bs1 =>
        some (bs1.cache / 2 ^ shift % 2, { bs1 with offset := bs1.offset + 1 })
  else
    some (bs.cache / 2 ^ shift % 2, { bs with offset := bs.offset + 1 })

/-- The `for (; size; size--) result = (result << 1) | ...` loop of
`BitstreamReadU` (bitstream.c:40-46); the accumulator is a `uint64_t`. -/
def readULoop (acc : Nat) (bs : Bitstream) : Nat → Option (Nat × Bitstream)
  | 0 => some (acc, bs)
  | size + 1 =>
    match BitstreamReadBit bs with
    | none => none
    | some (bit, bs1) => readULoop (acc * 2 % 2 ^ 64 + bit) bs1 size

/-- `BitstreamReadU`: read `size` bits MSB first. -/
def BitstreamReadU (bs : Bitstream) (size : Nat) : Option (Nat × Bitstream) :=
  readULoop 0 bs size

/-- The `while (!BitstreamReadBit(bitstream)) size++;` loop of
`BitstreamReadUE` (bitstream.c:50): count leading zero bits.  The fuel again
only serves structural recursion: every successful `BitstreamReadBit`
strictly increases `offset`, a successful read from a byte boundary requires
`offset / 8 < data.length`, and between byte boundaries at most seven reads
happen, so `(8 * data.length - offset) + 16` iterations are never exhausted
before the loop ends by itself. -/
def countZerosAux : Nat → Bitstream → Option (Nat × Bitstream)
  | 0, _ => none
  | fuel + 1, bs =>
    match BitstreamReadBit bs with
    | none => none
    | some (bit, bs1) =>
      if bit = 0 then
        match countZerosAux fuel bs1 with
        | none => none
        | some (size, bs2) => some (size + 1, bs2)
      else
        some (0, bs1)

/-- Entry point of the leading-zero count with adequate fuel. -/
def countZeros (bs : Bitstream) : Option (Nat × Bitstream) :=
  countZerosAux ((8 * bs.data.length - bs.offset) + 16) bs

/-- `BitstreamReadUE` (bitstream.c:48-52): unsigned exponential-Golomb.
The C source computes `(BitstreamReadU(bitstream, size) | (1 << size)) - 1`
on `uint64_t`; the `1 << size` is taken at its mathematical value `2 ^ size`
(for `size ≥ 31` the C `int` shift is undefined). -/
def BitstreamReadUE (bs : Bitstream) : Option (Nat × Bitstream) :=
  match countZeros bs with
  | none => none
  | some (size, bs1) =>
    match BitstreamReadU bs1 size with
    | none => none
    | some (result, bs2) => some (((result ||| 2 ^ size) - 1) % 2 ^ 64, bs2)

/-- `BitstreamReadSE` (bitstream.c:54-58): signed exponential-Golomb,
`sign = ((result & 1) << 1) - 1`, value `sign * ((result + 1) >> 1)`. -/
def BitstreamReadSE (bs : Bitstream) : Option (Int × Bitstream) :=
  match BitstreamReadUE bs with
  | none => none
  | some (result, bs1) =>
    some (((result % 2 * 2 : Int) - 1) * ((result + 1) % 2 ^ 64 / 2 : Nat), bs1)

/-- `BitstreamByteAlign` (bitstream.c:60-62): round the offset up to the next
multiple of eight. -/
def BitstreamByteAlign (bs : Bitstream) : Bitstream :=
  { bs with offset := (bs.offset + 7) / 8 * 8 }

/-- `BitstreamAvail` (bitstream.c:87-89): `offset < size << 3`. -/
def BitstreamAvail (bs : Bitstream) : Bool :=
  bs.offset < 8 * bs.data.length

end Receiver

namespace Receiver

/-- C1 counterexample: for the bare four-byte NAL body `00 00 03 41` the
reader reports the first eight bits as `0x00` (not `0x41`), and reading the
whole body yields `0x000341` with `epb_count = 0` (not 1): the `0x03` is
loaded at bit offset 16 < 24, so no elision happens. -/
theorem epb_elision_counterexample :
    (BitstreamReadU (BitstreamCreate [0x00, 0x00, 0x03, 0x41]) 8).map Prod.fst =
      some 0x00 ∧
    (BitstreamReadU (BitstreamCreate [0x00, 0x00, 0x03, 0x41]) 32).map
      (fun r => (r.1, r.2.epb_count)) = some (0x000341, 0) := by
  constructor <;> decide

end Receiver

namespace Receiver

/-- C1 amended: elision requires the `0x03` to be loaded at bit offset ≥ 24.
Concretely, when the four-byte body `00 00 03 41` is preceded by the two-byte
NAL-unit header `26 01`, the 24 bits following the header read as `0x000041`,
`epb_count` ends at 1, and `avail` is false afterwards (the elided byte was
consumed).  In general, whenever a byte equal to `0x03` is loaded at a byte
boundary `8 * k` with `k ≥ 3` and the previous two loaded bytes (the low 16
cache bits) are zero, the `0x03` is skipped, the EPB counter increments by
exactly one, and the bit delivered comes from the following byte. -/
theorem epb_elision_amended :
    ((BitstreamReadU (BitstreamCreate [0x26, 0x01, 0x00, 0x00, 0x03, 0x41]) 16).bind
      fun r => (BitstreamReadU r.2 24).map
        fun q => (q.1, q.2.epb_count, BitstreamAvail q.2)) =
      some (0x41, 1, false) ∧
    ∀ (bs : Bitstream) (k : Nat),
      bs.offset = 8 * k → 3 ≤ k → k + 1 < bs.data.length →
      bs.cache % 2 ^ 16 = 0 → bs.data.getD k 0 = 3 →
      bs.data.getD (k + 1) 0 < 256 →
      ∃ bit bs1, BitstreamReadBit bs = some (bit, bs1) ∧
        bs1.epb_count = bs.epb_count + 1 ∧
        bs1.offset = 8 * (k + 1) + 1 ∧
        bit = bs.data.getD (k + 1) 0 / 128 % 2 := by
  refine ⟨by decide, ?_⟩
  rintro ⟨data, offset, epb, c⟩ k hoff h3 hlen hc hk hd1
  dsimp only at hoff hc hk hd1 hlen ⊢
  subst hoff
  have hk8 : 8 * k / 8 = k := by omega
  have hload : loadByte ⟨data, 8 * k, epb, c⟩ =
      some ⟨data, 8 * (k + 1), epb + 1,
        ((c * 256 + 3) % 2 ^ 32 * 256 + data.getD (k + 1) 0) % 2 ^ 32⟩ := by
    rw [loadByte]
    dsimp only
    rw [(by omega : data.length - 8 * k / 8 = (data.length - k - 2) + 2)]
    rw [loadByteAux]
    dsimp only
    rw [if_pos (by omega : 8 * k / 8 < data.length)]
    rw [if_pos ⟨by omega, by rw [hk8, hk]; omega⟩]
    rw [hk8, hk]
    rw [loadByteAux]
    dsimp only
    rw [if_pos (by omega : (8 * k + 8) / 8 < data.length)]
    rw [(by omega : (8 * k + 8) / 8 = k + 1)]
    rw [if_neg (by rintro ⟨-, habs⟩; omega)]
    rw [(by omega : 8 * k + 8 = 8 * (k + 1))]
  have hbit : BitstreamReadBit ⟨data, 8 * k, epb, c⟩ =
      some (((c * 256 + 3) % 2 ^ 32 * 256 + data.getD (k + 1) 0) % 2 ^ 32
              / 2 ^ 7 % 2,
            ⟨data, 8 * (k + 1) + 1, epb + 1,
              ((c * 256 + 3) % 2 ^ 32 * 256 + data.getD (k + 1) 0) % 2 ^ 32⟩) := by
    rw [BitstreamReadBit]
    dsimp only
    rw [(by omega : 7 - 8 * k % 8 = 7), if_pos rfl, hload]
  exact ⟨_, _, hbit, rfl, rfl, by omega⟩


/-- Witness for C1 (amended): a reader positioned at byte 4 of
`26 01 00 00 03 41` with two zero bytes just loaded skips the `0x03`,
increments the EPB counter to 1 and delivers bit 0 of byte `0x41`. -/
theorem epb_elision_amended_witness :
    (3 ≤ 4 ∧ 4 + 1 < ([0x26, 0x01, 0x00, 0x00, 0x03, 0x41] : List Nat).length ∧
      (0x26010000 : Nat) % 2 ^ 16 = 0 ∧
      ([0x26, 0x01, 0x00, 0x00, 0x03, 0x41] : List Nat).getD 4 0 = 3) ∧
    ∃ bit bs1,
      BitstreamReadBit ⟨[0x26, 0x01, 0x00, 0x00, 0x03, 0x41], 8 * 4, 0, 0x26010000⟩ =
          some (bit, bs1) ∧
        bs1.epb_count = 0 + 1 ∧ bs1.offset = 8 * (4 + 1) + 1 ∧ bit = 0 := by
  refine ⟨⟨by decide, by decide, by decide, by decide⟩, ?_⟩
  obtain ⟨bit, bs1, h1, h2, h3, h4⟩ := epb_elision_amended.2
    ⟨[0x26, 0x01, 0x00, 0x00, 0x03, 0x41], 8 * 4, 0, 0x26010000⟩ 4
    rfl (by decide) (by decide) (by decide) (by decide) (by decide)
  refine ⟨bit, bs1, h1, h2, h3, ?_⟩
  rw [h4]
  decide

end Receiver

namespace Receiver

/-- The bit-delivery layer of the reader abstracted to the list of bits it
delivers (the RBSP bits, i.e. after emulation-prevention elision, which is
treated separately): reading one bit takes the head of the list. -/
def bitsReadBit : List Nat → Option (Nat × List Nat)
  | [] => none
  | bit :: rest => some (bit, rest)

/-- The accumulation loop of `BitstreamReadU` over delivered bits. -/
def bitsReadULoop (acc : Nat) (bits : List Nat) : Nat → Option (Nat × List Nat)
  | 0 => some (acc, bits)
  | size + 1 =>
    match bitsReadBit bits with
    | none => none
    | some (bit, rest) => bitsReadULoop (acc * 2 % 2 ^ 64 + bit) rest size

/-- `BitstreamReadU` over delivered bits. -/
def bitsReadU (bits : List Nat) (size : Nat) : Option (Nat × List Nat) :=
  bitsReadULoop 0 bits size

/-- The leading-zero-count loop of `BitstreamReadUE` over delivered bits. -/
def bitsCountZeros : List Nat → Option (Nat × List Nat)
  | [] => none
  | bit :: rest =>
    if bit = 0 then
      match bitsCountZeros rest with
      | none => none
      | some (size, rest1) => some (size + 1, rest1)
    else
      some (0, rest)

/-- `BitstreamReadUE` over delivered bits: count leading zero bits `size`,
then `(read_u(size) | (1 << size)) - 1`. -/
def bitsReadUE (bits : List Nat) : Option (Nat × List Nat) :=
  match bitsCountZeros bits with
  | none => none
  | some (size, rest1) =>
    match bitsReadU rest1 size with
    | none => none
    | some (result, rest2) => some (((result ||| 2 ^ size) - 1) % 2 ^ 64, rest2)

/-- `BitstreamReadSE` over delivered bits: `s = read_ue()`, then
`(((s & 1) << 1) - 1) * ((s + 1) >> 1)`. -/
def bitsReadSE (bits : List Nat) : Option (Int × List Nat) :=
  match bitsReadUE bits with
  | none => none
  | some (result, rest1) =>
    some (((result % 2 * 2 : Int) - 1) * ((result + 1) % 2 ^ 64 / 2 : Nat), rest1)

/-- MSB-first binary digits of `n`, `width` bits wide (spec-side helper for
the canonical encodings). -/
def natBitsMSB : Nat → Nat → List Nat
  | 0, _ => []
  | width + 1, n => n / 2 ^ width % 2 :: natBitsMSB width n

/-- Modelled from the spec: the canonical unsigned exponential-Golomb
encoding of `k` — `size (k+1) - 1` zero bits followed by the binary digits
of `k + 1`. -/
def canonicalUE (k : Nat) : List Nat :=
  List.replicate ((k + 1).size - 1) 0 ++ natBitsMSB (k + 1).size (k + 1)

/-- Modelled from the spec: the canonical signed exponential-Golomb encoding,
inverse of the mapping `se = 0 → 0, 1 → 1, 2 → -1, 3 → 2, …`: positive `k`
maps to code number `2k - 1`, non-positive `k` to `-2k`. -/
def canonicalSE (k : Int) : List Nat :=
  canonicalUE (if 0 < k then 2 * k - 1 else -2 * k).toNat

theorem bitsCountZeros_replicate (z : Nat) (rest : List Nat) :
    bitsCountZeros (List.replicate z 0 ++ 1 :: rest) = some (z, rest) := by
  induction z with
  | zero => simp [bitsCountZeros]
  | succ z ih => simp [List.replicate, bitsCountZeros, ih]

theorem bitsReadULoop_natBitsMSB (z : Nat) :
    ∀ (acc : Nat) (n : Nat) (rest : List Nat),
      acc * 2 ^ z + n % 2 ^ z < 2 ^ 64 →
      bitsReadULoop acc (natBitsMSB z n ++ rest) z =
        some (acc * 2 ^ z + n % 2 ^ z, rest) := by
  induction z with
  | zero =>
      intro acc n rest h
      simp [natBitsMSB, bitsReadULoop, Nat.mod_one]
  | succ z ih =>
      intro acc n rest h
      have hmod : n % 2 ^ (z + 1) = n % 2 ^ z + 2 ^ z * (n / 2 ^ z % 2) := by
        rw [pow_succ, Nat.mod_mul]
      have h2 : (2 : Nat) ≤ 2 ^ (z + 1) := by
        calc (2 : Nat) = 2 ^ 1 := rfl
        _ ≤ 2 ^ (z + 1) := Nat.pow_le_pow_right (by norm_num) (by omega)
      have hacc2 : acc * 2 < 2 ^ 64 := by
        calc acc * 2 ≤ acc * 2 ^ (z + 1) := Nat.mul_le_mul_left acc h2
        _ ≤ acc * 2 ^ (z + 1) + n % 2 ^ (z + 1) := Nat.le_add_right _ _
        _ < 2 ^ 64 := h
      rw [natBitsMSB]
      rw [List.cons_append]
      rw [bitsReadULoop]
      rw [bitsReadBit]
      dsimp only
      have hstep : acc * 2 % 2 ^ 64 + n / 2 ^ z % 2 = acc * 2 + n / 2 ^ z % 2 := by
        rw [Nat.mod_eq_of_lt hacc2]
      rw [hstep]
      rw [ih (acc * 2 + n / 2 ^ z % 2) n rest ?bound]
      case bound =>
        have : (acc * 2 + n / 2 ^ z % 2) * 2 ^ z + n % 2 ^ z =
            acc * 2 ^ (z + 1) + n % 2 ^ (z + 1) := by
          rw [hmod, pow_succ]
          ring
        rw [this]
        exact h
      congr 1
      have : (acc * 2 + n / 2 ^ z % 2) * 2 ^ z + n % 2 ^ z =
          acc * 2 ^ (z + 1) + n % 2 ^ (z + 1) := by
        rw [hmod, pow_succ]
        ring
      rw [this]

theorem lor_two_pow_of_lt {a z : Nat} (h : a < 2 ^ z) :
    a ||| 2 ^ z = 2 ^ z + a := by
  apply Nat.eq_of_testBit_eq
  intro i
  rcases lt_trichotomy i z with hi | rfl | hi
  · rw [Nat.testBit_or, Nat.testBit_two_pow_of_ne (by omega),
      Nat.testBit_two_pow_add_gt hi]
    simp
  · rw [Nat.testBit_or, Nat.testBit_two_pow_self, Nat.testBit_two_pow_add_eq,
      Nat.testBit_lt_two_pow h]
    simp
  · have ha : a < 2 ^ i := lt_of_lt_of_le h (Nat.pow_le_pow_right (by norm_num) (by omega))
    have hs : 2 ^ z + a < 2 ^ i := by
      have h1 : 2 ^ z + a < 2 ^ (z + 1) := by
        have : (2 : Nat) ^ (z + 1) = 2 ^ z + 2 ^ z := by ring
        omega
      have h2 : (2 : Nat) ^ (z + 1) ≤ 2 ^ i := Nat.pow_le_pow_right (by norm_num) (by omega)
      omega
    rw [Nat.testBit_or, Nat.testBit_two_pow_of_ne (by omega),
      Nat.testBit_lt_two_pow ha, Nat.testBit_lt_two_pow hs]
    simp

theorem bitsReadUE_canonical (k : Nat) (rest : List Nat) (hk : k + 1 < 2 ^ 64) :
    bitsReadUE (canonicalUE k ++ rest) = some (k, rest) := by
  have hn1 : 1 ≤ k + 1 := by omega
  have hsz : (k + 1).size = ((k + 1).size - 1) + 1 := by
    have : 0 < (k + 1).size := Nat.size_pos.mpr hn1
    omega
  set z := (k + 1).size - 1 with hz
  have hhigh : k + 1 < 2 ^ (z + 1) := by
    rw [← hsz]
    exact Nat.lt_size_self (k + 1)
  have hlow : 2 ^ z ≤ k + 1 := by
    by_contra hcon
    push_neg at hcon
    have := Nat.size_le.mpr hcon
    omega
  have hdiv : (k + 1) / 2 ^ z = 1 := by
    apply Nat.div_eq_of_lt_le
    · omega
    · have : (2 : Nat) ^ (z + 1) = 2 ^ z + 2 ^ z := by ring
      omega
  rw [canonicalUE, ← hz, hsz, natBitsMSB]
  rw [hdiv]
  norm_num
  rw [bitsReadUE]
  rw [bitsCountZeros_replicate]
  dsimp only
  rw [bitsReadU]
  have hmlt : (k + 1) % 2 ^ z < 2 ^ 64 := by
    have : (k + 1) % 2 ^ z ≤ k + 1 := Nat.mod_le _ _
    omega
  rw [bitsReadULoop_natBitsMSB z 0 (k + 1) rest (by simpa using hmlt)]
  have hmod2 : (k + 1) % 2 ^ z < 2 ^ z := Nat.mod_lt _ (Nat.pos_pow_of_pos z (by norm_num))
  norm_num
  rw [lor_two_pow_of_lt hmod2]
  have hrecon : 2 ^ z + (k + 1) % 2 ^ z = k + 1 := by
    conv_rhs => rw [← Nat.div_add_mod (k + 1) (2 ^ z)]
    rw [hdiv]
    ring
  rw [hrecon]
  norm_num
  omega

end Receiver

namespace Receiver

theorem bitsReadSE_canonical (k : Int) (rest : List Nat)
    (h1 : -2 ^ 63 < k) (h2 : k < 2 ^ 63) :
    bitsReadSE (canonicalSE k ++ rest) = some (k, rest) := by
  rw [canonicalSE, bitsReadSE]
  set s := ((if 0 < k then 2 * k - 1 else -2 * k).toNat) with hs
  have hs64 : s + 1 < 2 ^ 64 := by
    rw [hs]
    split <;> omega
  rw [bitsReadUE_canonical s rest hs64]
  dsimp only
  by_cases hk : 0 < k
  · have hsk : (s : Int) = 2 * k - 1 := by rw [hs]; simp [hk]; omega
    have hodd : s % 2 = 1 := by omega
    have hval : ((s + 1) % 2 ^ 64 / 2 : Nat) = (k.toNat : Nat) := by omega
    have hoddInt : ((s : Int)) % 2 = 1 := by omega
    have hvalInt : (((s + 1) % 2 ^ 64 / 2 : Nat) : Int) = ((k.toNat : Nat) : Int) := by
      exact_mod_cast hval
    rw [hoddInt, hvalInt]
    norm_num
    omega
  · have hsk : (s : Int) = -2 * k := by rw [hs]; simp [hk]; omega
    have heven : s % 2 = 0 := by omega
    have hval : ((s + 1) % 2 ^ 64 / 2 : Nat) = ((-k).toNat : Nat) := by omega
    have hevenInt : ((s : Int)) % 2 = 0 := by omega
    have hvalInt : (((s + 1) % 2 ^ 64 / 2 : Nat) : Int) = (((-k).toNat : Nat) : Int) := by
      exact_mod_cast hval
    rw [hevenInt, hvalInt]
    norm_num
    omega

/-- C2: exponential-Golomb round trip.  For every `uint64`-representable
`k ≥ 0`, `read_ue` on the canonical unsigned encoding of `k` returns `k`;
for every `int64`-representable `k`, `read_se` on the canonical signed
encoding (se = 0 → 0, 1 → 1, 2 → −1, 3 → 2, …) returns `k`.  Both readers
follow the loops of bitstream.c over the delivered bit sequence. -/
theorem exp_golomb_round_trip :
    (∀ (k : Nat) (rest : List Nat), k + 1 < 2 ^ 64 →
      bitsReadUE (canonicalUE k ++ rest) = some (k, rest)) ∧
    (∀ (k : Int) (rest : List Nat), -2 ^ 63 < k → k < 2 ^ 63 →
      bitsReadSE (canonicalSE k ++ rest) = some (k, rest)) :=
  ⟨fun k rest hk => bitsReadUE_canonical k rest hk,
   fun k rest h1 h2 => bitsReadSE_canonical k rest h1 h2⟩

/-- Witness for C2 at `k = 7` (unsigned) and `k = -3` (signed). -/
theorem exp_golomb_round_trip_witness :
    bitsReadUE (canonicalUE 7 ++ [1, 0]) = some (7, [1, 0]) ∧
    bitsReadSE (canonicalSE (-3) ++ [1]) = some (-3, [1]) :=
  ⟨exp_golomb_round_trip.1 7 [1, 0] (by norm_num),
   exp_golomb_round_trip.2 (-3) [1] (by norm_num) (by norm_num)⟩

end Receiver

namespace Receiver

/-- Truncating cast to `int8_t` (two's complement wrap). -/
def toInt8 (x : Int) : Int :=
  (x + 2 ^ 7) % 2 ^ 8 - 2 ^ 7

/-- Truncating interpretation of a `size_t` value as `int32_t`. -/
def toInt32Nat (x : Nat) : Int :=
  ((x : Int) + 2 ^ 31) % 2 ^ 32 - 2 ^ 31

/-- `assert(BitstreamReadU(nalu, size) == val)`: a fixed-field assertion;
assertion failure is modelled as parse failure. -/
def expectU (bs : Bitstream) (size val : Nat) : Option Bitstream :=
  match BitstreamReadU bs size with
  | none => none
  | some (x, bs1) => if x = val then some bs1 else none

/-- `assert(BitstreamReadUE(nalu) == val)`. -/
def expectUE (bs : Bitstream) (val : Nat) : Option Bitstream :=
  match BitstreamReadUE bs with
  | none => none
  | some (x, bs1) => if x = val then some bs1 else none

/-- `CeilLog2` (mfxvideo.c:48-50): `32 - __builtin_clz(x - 1)` on `uint32_t`,
i.e. the binary size of `x - 1` (the C source is only called with `x > 1`;
`__builtin_clz(0)` would be undefined). -/
def CeilLog2 (x : Nat) : Nat :=
  Nat.size (x - 1)

/-- `ParseStRefPicSet` (mfxvideo.c:81-89): the fixed short-term RPS shape
accepted by the parser (one negative reference, delta 0, used by current). -/
def ParseStRefPicSet (bs : Bitstream) (stRpsIdx : Nat) : Option Bitstream := do
  let bs ← if stRpsIdx ≠ 0 then expectU bs 1 0 else pure bs
  let bs ← expectUE bs 1
  let bs ← expectUE bs 0
  let bs ← expectUE bs 0
  expectU bs 1 1

/-- The fields of `VAPictureParameterBufferHEVC` (plus session picture state)
read or written by the slice-segment-header parser and the decode step. -/
structure VaPictureHEVC where
  picture_id : Nat
  pic_order_cnt : Int
  flags : Nat
  deriving Repr, DecidableEq

def VA_INVALID_SURFACE : Nat := 0xffffffff

def VA_PICTURE_HEVC_RPS_ST_CURR_BEFORE : Nat := 0x10

structure Ppb where
  log2_max_pic_order_cnt_lsb_minus4 : Nat
  num_short_term_ref_pic_sets : Nat
  num_ref_idx_l0_default_active_minus1 : Nat
  num_ref_idx_l1_default_active_minus1 : Nat
  sps_temporal_mvp_enabled_flag : Nat
  cabac_init_present_flag : Nat
  pps_loop_filter_across_slices_enabled_flag : Nat
  st_rps_bits : Nat
  CurrPic : VaPictureHEVC
  ReferenceFrames : List VaPictureHEVC
  NoPicReorderingFlag : Nat
  NoBiPredFlag : Nat
  RapPicFlag : Nat
  IdrPicFlag : Nat
  IntraPicFlag : Nat
  deriving Repr, DecidableEq

/-- The fields of `VASliceParameterBufferHEVC` written by the parser and the
decode step.  Bit widths follow the libva structure: `slice_type` is a 2-bit
bitfield, the `*_minus1` counts and `collocated_ref_idx` are `uint8_t`,
`slice_qp_delta` is `int8_t`, `slice_data_num_emu_prevn_bytes` `uint16_t`. -/
structure Spb where
  slice_type : Nat
  slice_temporal_mvp_enabled_flag : Nat
  slice_sao_luma_flag : Nat
  slice_sao_chroma_flag : Nat
  collocated_ref_idx : Nat
  collocated_from_l0_flag : Nat
  num_ref_idx_l0_active_minus1 : Nat
  num_ref_idx_l1_active_minus1 : Nat
  cabac_init_flag : Nat
  five_minus_max_num_merge_cand : Nat
  slice_qp_delta : Int
  slice_loop_filter_across_slices_enabled_flag : Nat
  LastSliceOfPic : Nat
  slice_data_size : Nat
  slice_data_offset : Nat
  slice_data_flag : Nat
  slice_data_byte_offset : Nat
  slice_data_num_emu_prevn_bytes : Nat
  RefPicList : List (List Nat)
  deriving Repr, DecidableEq

/-- `memset(&session->spb, 0, sizeof(session->spb))` (mfxvideo.c:328). -/
def zeroSpb : Spb :=
  { slice_type := 0, slice_temporal_mvp_enabled_flag := 0,
    slice_sao_luma_flag := 0, slice_sao_chroma_flag := 0,
    collocated_ref_idx := 0, collocated_from_l0_flag := 0,
    num_ref_idx_l0_active_minus1 := 0, num_ref_idx_l1_active_minus1 := 0,
    cabac_init_flag := 0, five_minus_max_num_merge_cand := 0,
    slice_qp_delta := 0, slice_loop_filter_across_slices_enabled_flag := 0,
    LastSliceOfPic := 0, slice_data_size := 0, slice_data_offset := 0,
    slice_data_flag := 0, slice_data_byte_offset := 0,
    slice_data_num_emu_prevn_bytes := 0,
    RefPicList := List.replicate 2 (List.replicate 15 0) }

/-- `no_output_of_prior_pics_flag` for IRAP NAL units (mfxvideo.c:331-333). -/
def parseNoOutputOfPriorPics (nal_unit_type : Nat) (bs : Bitstream) :
    Option Bitstream :=
  if 16 ≤ nal_unit_type ∧ nal_unit_type ≤ 23 then expectU bs 1 0 else pure bs

/-- The short-term RPS choice of the slice header (mfxvideo.c:343-356):
either an explicit RPS whose bit length (EPB bits excluded) is recorded in
`st_rps_bits`, or an RPS index of `CeilLog2(count)` bits. -/
def parseStRpsChoice (ppb : Ppb) (bs : Bitstream) : Option (Ppb × Bitstream) := do
  let (sps_flag, bs) ← BitstreamReadU bs 1
  if sps_flag = 0 then do
    let offset0 := bs.offset
    let epb0 := bs.epb_count
    let bs ← ParseStRefPicSet bs ppb.num_short_term_ref_pic_sets
    pure ({ ppb with st_rps_bits :=
      (bs.offset - offset0 - (bs.epb_count - epb0) * 8) % 2 ^ 32 }, bs)
  else if 1 < ppb.num_short_term_ref_pic_sets then do
    let (_idx, bs) ← BitstreamReadU bs (CeilLog2 ppb.num_short_term_ref_pic_sets)
    pure (ppb, bs)
  else pure (ppb, bs)

/-- The optional `slice_temporal_mvp_enabled_flag` (mfxvideo.c:358-361). -/
def parseTemporalMvp (ppb : Ppb) (spb : Spb) (bs : Bitstream) :
    Option (Spb × Bitstream) :=
  if ppb.sps_temporal_mvp_enabled_flag ≠ 0 then do
    let (v, bs) ← BitstreamReadU bs 1
    pure ({ spb with slice_temporal_mvp_enabled_flag := v }, bs)
  else pure (spb, bs)

/-- The non-IDR part of the slice-segment header (mfxvideo.c:338-362): POC
LSB, the short-term RPS choice, and the optional temporal-MVP flag. -/
def parseNonIdrPrefix (ppb : Ppb) (spb : Spb) (bs : Bitstream) :
    Option (Ppb × Spb × Bitstream) := do
  let (_poc_lsb, bs) ← BitstreamReadU bs (ppb.log2_max_pic_order_cnt_lsb_minus4 + 4)
  let (ppb, bs) ← parseStRpsChoice ppb bs
  let (spb, bs) ← parseTemporalMvp ppb spb bs
  pure (ppb, spb, bs)

/-- The `if (nal_unit_type != IDR_W_RADL && nal_unit_type != IDR_N_LP)`
dispatch around the non-IDR part (mfxvideo.c:338). -/
def parseNonIdrSection (ppb : Ppb) (spb : Spb) (nal_unit_type : Nat)
    (bs : Bitstream) : Option (Ppb × Spb × Bitstream) :=
  if nal_unit_type ≠ 19 ∧ nal_unit_type ≠ 20 then parseNonIdrPrefix ppb spb bs
  else pure (ppb, spb, bs)

/-- `num_ref_idx_active_override_flag` and the optional l0 count override
(mfxvideo.c:381-385). -/
def pSliceNumRefOverride (spb : Spb) (bs : Bitstream) : Option (Spb × Bitstream) := do
  let (override_flag, bs) ← BitstreamReadU bs 1
  if override_flag ≠ 0 then do
    let (v, bs) ← BitstreamReadUE bs
    pure ({ spb with num_ref_idx_l0_active_minus1 := v % 2 ^ 8 }, bs)
  else pure (spb, bs)

/-- The optional `cabac_init_flag` (mfxvideo.c:386-389). -/
def pSliceCabacInit (ppb : Ppb) (spb : Spb) (bs : Bitstream) :
    Option (Spb × Bitstream) :=
  if ppb.cabac_init_present_flag ≠ 0 then do
    let (v, bs) ← BitstreamReadU bs 1
    pure ({ spb with cabac_init_flag := v }, bs)
  else pure (spb, bs)

/-- The optional `collocated_ref_idx` (mfxvideo.c:390-397). -/
def pSliceCollocatedRefIdx (spb : Spb) (bs : Bitstream) :
    Option (Spb × Bitstream) :=
  if spb.slice_temporal_mvp_enabled_flag ≠ 0 then
    if (spb.collocated_from_l0_flag ≠ 0 ∧ 0 < spb.num_ref_idx_l0_active_minus1) ∨
        (spb.collocated_from_l0_flag = 0 ∧ 0 < spb.num_ref_idx_l1_active_minus1) then do
      let (v, bs) ← BitstreamReadUE bs
      pure ({ spb with collocated_ref_idx := v % 2 ^ 8 }, bs)
    else pure (spb, bs)
  else pure (spb, bs)

/-- `five_minus_max_num_merge_cand` (mfxvideo.c:398). -/
def pSliceMergeCand (spb : Spb) (bs : Bitstream) : Option (Spb × Bitstream) := do
  let (v, bs) ← BitstreamReadUE bs
  pure ({ spb with five_minus_max_num_merge_cand := v % 2 ^ 8 }, bs)

/-- The `if (slice_type == P)` body of `ParseSliceSegmentHeader`
(mfxvideo.c:380-399). -/
def parsePSliceOverrides (ppb : Ppb) (spb : Spb) (bs : Bitstream) :
    Option (Spb × Bitstream) := do
  let (spb, bs) ← pSliceNumRefOverride spb bs
  let (spb, bs) ← pSliceCabacInit ppb spb bs
  let (spb, bs) ← pSliceCollocatedRefIdx spb bs
  pSliceMergeCand spb bs

/-- The `if (slice_type == P)` dispatch (mfxvideo.c:380). -/
def parsePSliceSection (ppb : Ppb) (spb : Spb) (bs : Bitstream) :
    Option (Spb × Bitstream) :=
  if spb.slice_type = 1 then parsePSliceOverrides ppb spb bs
  else pure (spb, bs)

/-- The optional `slice_loop_filter_across_slices_enabled_flag`
(mfxvideo.c:401-407). -/
def parseLoopFilterFlag (ppb : Ppb) (spb : Spb) (bs : Bitstream) :
    Option (Spb × Bitstream) :=
  if ppb.pps_loop_filter_across_slices_enabled_flag ≠ 0 ∧
      (spb.slice_sao_luma_flag ≠ 0 ∨ spb.slice_sao_chroma_flag ≠ 0) then do
    let (v, bs) ← BitstreamReadU bs 1
    pure ({ spb with slice_loop_filter_across_slices_enabled_flag := v }, bs)
  else pure (spb, bs)

/-- `ParseSliceSegmentHeader` (mfxvideo.c:326-409).  Returns the updated
picture parameters (`st_rps_bits` may change), the slice parameters, and the
reader state after the trailing byte alignment. -/
def ParseSliceSegmentHeader (ppb : Ppb) (nal_unit_type : Nat) (bs : Bitstream) :
    Option (Ppb × Spb × Bitstream) := do
  let spb := zeroSpb
  let bs ← expectU bs 1 1
  let bs ← parseNoOutputOfPriorPics nal_unit_type bs
  let bs ← expectUE bs 0
  let (st, bs) ← BitstreamReadUE bs
  let spb := { spb with slice_type := st % 2 ^ 2 }
  let (ppb, spb, bs) ← parseNonIdrSection ppb spb nal_unit_type bs
  let (v, bs) ← BitstreamReadU bs 1
  let spb := { spb with slice_sao_luma_flag := v }
  if spb.slice_sao_luma_flag ≠ 1 then none else do
  let (v, bs) ← BitstreamReadU bs 1
  let spb := { spb with slice_sao_chroma_flag := v }
  if spb.slice_sao_chroma_flag ≠ 1 then none else do
  let spb := { spb with
    collocated_ref_idx := 0xff,
    collocated_from_l0_flag := 1,
    num_ref_idx_l0_active_minus1 := ppb.num_ref_idx_l0_default_active_minus1,
    num_ref_idx_l1_active_minus1 := ppb.num_ref_idx_l1_default_active_minus1 }
  let (spb, bs) ← parsePSliceSection ppb spb bs
  let (q, bs) ← BitstreamReadSE bs
  let spb := { spb with slice_qp_delta := toInt8 q }
  let (spb, bs) ← parseLoopFilterFlag ppb spb bs
  pure (ppb, spb, BitstreamByteAlign bs)

end Receiver

namespace Receiver

/-- How every reader operation evolves the bitstream state: the data is
borrowed (never changed), the offset only grows, and every counted EPB
accounts for eight skipped offset bits. -/
def BsEvolve (bs bs1 : Bitstream) : Prop :=
  bs1.data = bs.data ∧ bs.offset ≤ bs1.offset ∧ bs.epb_count ≤ bs1.epb_count ∧
    8 * (bs1.epb_count - bs.epb_count) ≤ bs1.offset - bs.offset

theorem BsEvolve.refl (bs : Bitstream) : BsEvolve bs bs :=
  ⟨rfl, le_refl _, le_refl _, by omega⟩

theorem BsEvolve.trans {a b c : Bitstream} (h1 : BsEvolve a b) (h2 : BsEvolve b c) :
    BsEvolve a c := by
  obtain ⟨d1, o1, e1, r1⟩ := h1
  obtain ⟨d2, o2, e2, r2⟩ := h2
  exact ⟨d2.trans d1, o1.trans o2, e1.trans e2, by omega⟩

theorem loadByteAux_evolve :
    ∀ (fuel : Nat) (bs bs1 : Bitstream), loadByteAux fuel bs = some bs1 →
      BsEvolve bs bs1 := by
  intro fuel
  induction fuel with
  | zero => intro bs bs1 h; simp [loadByteAux] at h
  | succ fuel ih =>
      intro bs bs1 h
      rw [loadByteAux] at h
      split at h
      · dsimp only at h
        split at h
        · have := ih _ _ h
          obtain ⟨d1, o1, e1, r1⟩ := this
          dsimp only at d1 o1 e1 r1
          exact ⟨d1, by omega, by omega, by omega⟩
        · simp only [Option.some.injEq] at h
          subst h
          refine ⟨rfl, ?_, ?_, ?_⟩ <;> dsimp only <;> omega
      · exact absurd h (by simp)

theorem loadByte_evolve {bs bs1 : Bitstream} (h : loadByte bs = some bs1) :
    BsEvolve bs bs1 :=
  loadByteAux_evolve _ bs bs1 h

theorem BitstreamReadBit_evolve {bs : Bitstream} {bit : Nat} {bs1 : Bitstream}
    (h : BitstreamReadBit bs = some (bit, bs1)) : BsEvolve bs bs1 := by
  rw [BitstreamReadBit] at h
  split at h
  · match hload : loadByte bs with
    | none => rw [hload] at h; exact absurd h (by simp)
    | some bs2 =>
        rw [hload] at h
        simp only [Option.some.injEq, Prod.mk.injEq] at h
        obtain ⟨d1, o1, e1, r1⟩ := loadByte_evolve hload
        obtain ⟨-, h2⟩ := h
        subst h2
        exact ⟨d1, by dsimp only; omega, by dsimp only; omega, by dsimp only; omega⟩
  · simp only [Option.some.injEq, Prod.mk.injEq] at h
    obtain ⟨-, h2⟩ := h
    subst h2
    exact ⟨rfl, by dsimp only; omega, le_refl _, by dsimp only; omega⟩

theorem readULoop_evolve :
    ∀ (size : Nat) (acc : Nat) (bs : Bitstream) (v : Nat) (bs1 : Bitstream),
      readULoop acc bs size = some (v, bs1) → BsEvolve bs bs1 := by
  intro size
  induction size with
  | zero =>
      intro acc bs v bs1 h
      rw [readULoop] at h
      simp only [Option.some.injEq, Prod.mk.injEq] at h
      obtain ⟨-, h2⟩ := h
      subst h2
      exact BsEvolve.refl bs
  | succ size ih =>
      intro acc bs v bs1 h
      rw [readULoop] at h
      match hbit : BitstreamReadBit bs with
      | none => rw [hbit] at h; exact absurd h (by simp)
      | some (bit, bs2) =>
          rw [hbit] at h
          exact (BitstreamReadBit_evolve hbit).trans (ih _ _ _ _ h)

theorem BitstreamReadU_evolve {bs : Bitstream} {size v : Nat} {bs1 : Bitstream}
    (h : BitstreamReadU bs size = some (v, bs1)) : BsEvolve bs bs1 :=
  readULoop_evolve size 0 bs v bs1 h

theorem countZerosAux_evolve :
    ∀ (fuel : Nat) (bs : Bitstream) (v : Nat) (bs1 : Bitstream),
      countZerosAux fuel bs = some (v, bs1) → BsEvolve bs bs1 := by
  intro fuel
  induction fuel with
  | zero => intro bs v bs1 h; simp [countZerosAux] at h
  | succ fuel ih =>
      intro bs v bs1 h
      rw [countZerosAux] at h
      match hbit : BitstreamReadBit bs with
      | none => rw [hbit] at h; exact absurd h (by simp)
      | some (bit, bs2) =>
          rw [hbit] at h
          dsimp only at h
          split at h
          · match hrec : countZerosAux fuel bs2 with
            | none => rw [hrec] at h; exact absurd h (by simp)
            | some (size, bs3) =>
                rw [hrec] at h
                simp only [Option.some.injEq, Prod.mk.injEq] at h
                obtain ⟨-, h2⟩ := h
                subst h2
                exact (BitstreamReadBit_evolve hbit).trans (ih _ _ _ hrec)
          · simp only [Option.some.injEq, Prod.mk.injEq] at h
            obtain ⟨-, h2⟩ := h
            subst h2
            exact BitstreamReadBit_evolve hbit

theorem BitstreamReadUE_evolve {bs : Bitstream} {v : Nat} {bs1 : Bitstream}
    (h : BitstreamReadUE bs = some (v, bs1)) : BsEvolve bs bs1 := by
  rw [BitstreamReadUE] at h
  match hcz : countZeros bs with
  | none => rw [hcz] at h; exact absurd h (by simp)
  | some (size, bs2) =>
      rw [hcz] at h
      dsimp only at h
      match hru : BitstreamReadU bs2 size with
      | none => rw [hru] at h; exact absurd h (by simp)
      | some (r, bs3) =>
          rw [hru] at h
          dsimp only at h
          simp only [Option.some.injEq, Prod.mk.injEq] at h
          obtain ⟨-, h2⟩ := h
          subst h2
          exact (countZerosAux_evolve _ _ _ _ hcz).trans (BitstreamReadU_evolve hru)

theorem BitstreamReadSE_evolve {bs : Bitstream} {v : Int} {bs1 : Bitstream}
    (h : BitstreamReadSE bs = some (v, bs1)) : BsEvolve bs bs1 := by
  rw [BitstreamReadSE] at h
  match hue : BitstreamReadUE bs with
  | none => rw [hue] at h; exact absurd h (by simp)
  | some (r, bs2) =>
      rw [hue] at h
      dsimp only at h
      simp only [Option.some.injEq, Prod.mk.injEq] at h
      obtain ⟨-, h2⟩ := h
      subst h2
      exact BitstreamReadUE_evolve hue

theorem BitstreamByteAlign_evolve (bs : Bitstream) :
    BsEvolve bs (BitstreamByteAlign bs) := by
  refine ⟨rfl, ?_, le_refl _, ?_⟩ <;> dsimp only [BitstreamByteAlign] <;> omega

theorem expectU_evolve {bs : Bitstream} {size val : Nat} {bs1 : Bitstream}
    (h : expectU bs size val = some bs1) : BsEvolve bs bs1 := by
  rw [expectU] at h
  match hru : BitstreamReadU bs size with
  | none => rw [hru] at h; exact absurd h (by simp)
  | some (x, bs2) =>
      rw [hru] at h
      dsimp only at h
      split at h
      · simp only [Option.some.injEq] at h
        subst h
        exact BitstreamReadU_evolve hru
      · exact absurd h (by simp)

theorem expectUE_evolve {bs : Bitstream} {val : Nat} {bs1 : Bitstream}
    (h : expectUE bs val = some bs1) : BsEvolve bs bs1 := by
  rw [expectUE] at h
  match hru : BitstreamReadUE bs with
  | none => rw [hru] at h; exact absurd h (by simp)
  | some (x, bs2) =>
      rw [hru] at h
      dsimp only at h
      split at h
      · simp only [Option.some.injEq] at h
        subst h
        exact BitstreamReadUE_evolve hru
      · exact absurd h (by simp)

end Receiver

namespace Receiver

theorem ParseStRefPicSet_evolve {bs : Bitstream} {idx : Nat} {bs1 : Bitstream}
    (h : ParseStRefPicSet bs idx = some bs1) : BsEvolve bs bs1 := by
  rw [ParseStRefPicSet] at h
  split at h
  · simp only [bind, Option.bind_eq_some, Option.pure_def, Option.some.injEq] at h
    obtain ⟨a, ha, b, hb, c, hc, d, hd, he⟩ := h
    exact (expectU_evolve ha).trans ((expectUE_evolve hb).trans
      ((expectUE_evolve hc).trans ((expectUE_evolve hd).trans (expectU_evolve he))))
  · simp only [bind, Option.some_bind, Option.bind_eq_some, Option.pure_def,
      Option.some.injEq] at h
    obtain ⟨b, hb, c, hc, d, hd, he⟩ := h
    exact (expectUE_evolve hb).trans
      ((expectUE_evolve hc).trans ((expectUE_evolve hd).trans (expectU_evolve he)))

theorem parseNoOutputOfPriorPics_evolve {nal : Nat} {bs bs1 : Bitstream}
    (h : parseNoOutputOfPriorPics nal bs = some bs1) : BsEvolve bs bs1 := by
  rw [parseNoOutputOfPriorPics] at h
  split at h
  · exact expectU_evolve h
  · simp only [Option.pure_def, Option.some.injEq] at h
    subst h
    exact BsEvolve.refl _

theorem parseStRpsChoice_evolve {ppb : Ppb} {bs : Bitstream} {ppb1 : Ppb}
    {bs1 : Bitstream} (h : parseStRpsChoice ppb bs = some (ppb1, bs1)) :
    BsEvolve bs bs1 := by
  rw [parseStRpsChoice] at h
  simp only [bind, Option.bind_eq_some] at h
  obtain ⟨⟨flag, bsf⟩, hf, h⟩ := h
  have hev : BsEvolve bs bsf := BitstreamReadU_evolve hf
  split at h
  · simp only [bind, Option.bind_eq_some, Option.pure_def, Option.some.injEq] at h
    obtain ⟨a, ha, h2⟩ := h
    obtain ⟨-, rfl⟩ := Prod.mk.injEq .. |>.mp h2.symm |>.imp id Eq.symm
    exact hev.trans (ParseStRefPicSet_evolve ha)
  · split at h
    · simp only [bind, Option.bind_eq_some, Option.pure_def, Option.some.injEq] at h
      obtain ⟨⟨x, bsx⟩, hx, h2⟩ := h
      obtain ⟨-, rfl⟩ := Prod.mk.injEq .. |>.mp h2.symm |>.imp id Eq.symm
      exact hev.trans (BitstreamReadU_evolve hx)
    · simp only [Option.pure_def, Option.some.injEq, Prod.mk.injEq] at h
      obtain ⟨-, rfl⟩ := h
      exact hev

theorem parseTemporalMvp_evolve {ppb : Ppb} {spb : Spb} {bs : Bitstream}
    {spb1 : Spb} {bs1 : Bitstream} (h : parseTemporalMvp ppb spb bs = some (spb1, bs1)) :
    BsEvolve bs bs1 := by
  rw [parseTemporalMvp] at h
  split at h
  · simp only [bind, Option.bind_eq_some, Option.pure_def, Option.some.injEq] at h
    obtain ⟨⟨v, bsv⟩, hv, h2⟩ := h
    obtain ⟨-, rfl⟩ := Prod.mk.injEq .. |>.mp h2.symm |>.imp id Eq.symm
    exact BitstreamReadU_evolve hv
  · simp only [Option.pure_def, Option.some.injEq, Prod.mk.injEq] at h
    obtain ⟨-, rfl⟩ := h
    exact BsEvolve.refl _

theorem parseNonIdrPrefix_evolve {ppb : Ppb} {spb : Spb} {bs : Bitstream}
    {ppb1 : Ppb} {spb1 : Spb} {bs1 : Bitstream}
    (h : parseNonIdrPrefix ppb spb bs = some (ppb1, spb1, bs1)) :
    BsEvolve bs bs1 := by
  rw [parseNonIdrPrefix] at h
  simp only [bind, Option.bind_eq_some, Option.pure_def, Option.some.injEq] at h
  obtain ⟨⟨p, bsp⟩, hp, ⟨q, bsq⟩, hq, ⟨r, bsr⟩, hr, h2⟩ := h
  obtain ⟨-, -, rfl⟩ := Prod.mk.injEq .. |>.mp h2.symm |>.imp id
    (fun a => (Prod.mk.injEq .. |>.mp a.symm).imp Eq.symm Eq.symm)
  exact (BitstreamReadU_evolve hp).trans
    ((parseStRpsChoice_evolve hq).trans (parseTemporalMvp_evolve hr))

theorem parseNonIdrSection_evolve {ppb : Ppb} {spb : Spb} {nal : Nat}
    {bs : Bitstream} {ppb1 : Ppb} {spb1 : Spb} {bs1 : Bitstream}
    (h : parseNonIdrSection ppb spb nal bs = some (ppb1, spb1, bs1)) :
    BsEvolve bs bs1 := by
  rw [parseNonIdrSection] at h
  split at h
  · exact parseNonIdrPrefix_evolve h
  · simp only [Option.pure_def, Option.some.injEq, Prod.mk.injEq] at h
    obtain ⟨-, -, rfl⟩ := h
    exact BsEvolve.refl _

end Receiver

namespace Receiver

theorem pSliceNumRefOverride_evolve {spb : Spb} {bs : Bitstream} {spb1 : Spb}
    {bs1 : Bitstream} (h : pSliceNumRefOverride spb bs = some (spb1, bs1)) :
    BsEvolve bs bs1 := by
  rw [pSliceNumRefOverride] at h
  simp only [bind, Option.bind_eq_some] at h
  obtain ⟨⟨flag, bsf⟩, hf, h⟩ := h
  have hev : BsEvolve bs bsf := BitstreamReadU_evolve hf
  split at h
  · simp only [bind, Option.bind_eq_some, Option.pure_def, Option.some.injEq] at h
    obtain ⟨⟨v, bsv⟩, hv, h2⟩ := h
    obtain ⟨-, rfl⟩ := Prod.mk.injEq .. |>.mp h2.symm |>.imp id Eq.symm
    exact hev.trans (BitstreamReadUE_evolve hv)
  · simp only [Option.pure_def, Option.some.injEq, Prod.mk.injEq] at h
    obtain ⟨-, rfl⟩ := h
    exact hev

theorem pSliceCabacInit_evolve {ppb : Ppb} {spb : Spb} {bs : Bitstream}
    {spb1 : Spb} {bs1 : Bitstream} (h : pSliceCabacInit ppb spb bs = some (spb1, bs1)) :
    BsEvolve bs bs1 := by
  rw [pSliceCabacInit] at h
  split at h
  · simp only [bind, Option.bind_eq_some, Option.pure_def, Option.some.injEq] at h
    obtain ⟨⟨v, bsv⟩, hv, h2⟩ := h
    obtain ⟨-, rfl⟩ := Prod.mk.injEq .. |>.mp h2.symm |>.imp id Eq.symm
    exact BitstreamReadU_evolve hv
  · simp only [Option.pure_def, Option.some.injEq, Prod.mk.injEq] at h
    obtain ⟨-, rfl⟩ := h
    exact BsEvolve.refl _

theorem pSliceCollocatedRefIdx_evolve {spb : Spb} {bs : Bitstream} {spb1 : Spb}
    {bs1 : Bitstream} (h : pSliceCollocatedRefIdx spb bs = some (spb1, bs1)) :
    BsEvolve bs bs1 := by
  rw [pSliceCollocatedRefIdx] at h
  split at h
  · split at h
    · simp only [bind, Option.bind_eq_some, Option.pure_def, Option.some.injEq] at h
      obtain ⟨⟨v, bsv⟩, hv, h2⟩ := h
      obtain ⟨-, rfl⟩ := Prod.mk.injEq .. |>.mp h2.symm |>.imp id Eq.symm
      exact BitstreamReadUE_evolve hv
    · simp only [Option.pure_def, Option.some.injEq, Prod.mk.injEq] at h
      obtain ⟨-, rfl⟩ := h
      exact BsEvolve.refl _
  · simp only [Option.pure_def, Option.some.injEq, Prod.mk.injEq] at h
    obtain ⟨-, rfl⟩ := h
    exact BsEvolve.refl _

theorem pSliceMergeCand_evolve {spb : Spb} {bs : Bitstream} {spb1 : Spb}
    {bs1 : Bitstream} (h : pSliceMergeCand spb bs = some (spb1, bs1)) :
    BsEvolve bs bs1 := by
  rw [pSliceMergeCand] at h
  simp only [bind, Option.bind_eq_some, Option.pure_def, Option.some.injEq] at h
  obtain ⟨⟨v, bsv⟩, hv, h2⟩ := h
  obtain ⟨-, rfl⟩ := Prod.mk.injEq .. |>.mp h2.symm |>.imp id Eq.symm
  exact BitstreamReadUE_evolve hv

theorem parsePSliceOverrides_evolve {ppb : Ppb} {spb : Spb} {bs : Bitstream}
    {spb1 : Spb} {bs1 : Bitstream}
    (h : parsePSliceOverrides ppb spb bs = some (spb1, bs1)) : BsEvolve bs bs1 := by
  rw [parsePSliceOverrides] at h
  simp only [bind, Option.bind_eq_some] at h
  obtain ⟨⟨s1, b1⟩, h1, ⟨s2, b2⟩, h2, ⟨s3, b3⟩, h3, h4⟩ := h
  exact (pSliceNumRefOverride_evolve h1).trans ((pSliceCabacInit_evolve h2).trans
    ((pSliceCollocatedRefIdx_evolve h3).trans (pSliceMergeCand_evolve h4)))

theorem parsePSliceSection_evolve {ppb : Ppb} {spb : Spb} {bs : Bitstream}
    {spb1 : Spb} {bs1 : Bitstream}
    (h : parsePSliceSection ppb spb bs = some (spb1, bs1)) : BsEvolve bs bs1 := by
  rw [parsePSliceSection] at h
  split at h
  · exact parsePSliceOverrides_evolve h
  · simp only [Option.pure_def, Option.some.injEq, Prod.mk.injEq] at h
    obtain ⟨-, rfl⟩ := h
    exact BsEvolve.refl _

theorem parseLoopFilterFlag_evolve {ppb : Ppb} {spb : Spb} {bs : Bitstream}
    {spb1 : Spb} {bs1 : Bitstream}
    (h : parseLoopFilterFlag ppb spb bs = some (spb1, bs1)) : BsEvolve bs bs1 := by
  rw [parseLoopFilterFlag] at h
  split at h
  · simp only [bind, Option.bind_eq_some, Option.pure_def, Option.some.injEq] at h
    obtain ⟨⟨v, bsv⟩, hv, h2⟩ := h
    obtain ⟨-, rfl⟩ := Prod.mk.injEq .. |>.mp h2.symm |>.imp id Eq.symm
    exact BitstreamReadU_evolve hv
  · simp only [Option.pure_def, Option.some.injEq, Prod.mk.injEq] at h
    obtain ⟨-, rfl⟩ := h
    exact BsEvolve.refl _

end Receiver

namespace Receiver

theorem parsePSliceSection_spec {ppb : Ppb} {spb : Spb} {bs : Bitstream}
    {spb1 : Spb} {bs1 : Bitstream} (h : parsePSliceSection ppb spb bs = some (spb1, bs1)) :
    (spb.slice_type = 1 ∧ parsePSliceOverrides ppb spb bs = some (spb1, bs1)) ∨
      (spb.slice_type ≠ 1 ∧ spb1 = spb ∧ bs1 = bs) := by
  rw [parsePSliceSection] at h
  split at h
  · exact Or.inl ⟨by assumption, h⟩
  · simp only [Option.pure_def, Option.some.injEq, Prod.mk.injEq] at h
    exact Or.inr ⟨by assumption, h.1.symm, h.2.symm⟩

theorem pSliceNumRefOverride_fields {spb : Spb} {bs : Bitstream} {spb1 : Spb}
    {bs1 : Bitstream} (h : pSliceNumRefOverride spb bs = some (spb1, bs1)) :
    spb1.slice_type = spb.slice_type ∧
    spb1.num_ref_idx_l1_active_minus1 = spb.num_ref_idx_l1_active_minus1 := by
  rw [pSliceNumRefOverride] at h
  simp only [bind, Option.bind_eq_some] at h
  obtain ⟨⟨flag, bsf⟩, hf, h⟩ := h
  split at h
  · simp only [bind, Option.bind_eq_some, Option.pure_def, Option.some.injEq] at h
    obtain ⟨⟨v, bsv⟩, hv, h2⟩ := h
    simp only [Prod.mk.injEq] at h2
    rw [← h2.1]
    exact ⟨rfl, rfl⟩
  · simp only [Option.pure_def, Option.some.injEq, Prod.mk.injEq] at h
    rw [← h.1]
    exact ⟨rfl, rfl⟩

theorem pSliceCabacInit_fields {ppb : Ppb} {spb : Spb} {bs : Bitstream}
    {spb1 : Spb} {bs1 : Bitstream} (h : pSliceCabacInit ppb spb bs = some (spb1, bs1)) :
    spb1.slice_type = spb.slice_type ∧
    spb1.num_ref_idx_l0_active_minus1 = spb.num_ref_idx_l0_active_minus1 ∧
    spb1.num_ref_idx_l1_active_minus1 = spb.num_ref_idx_l1_active_minus1 := by
  rw [pSliceCabacInit] at h
  split at h
  · simp only [bind, Option.bind_eq_some, Option.pure_def, Option.some.injEq] at h
    obtain ⟨⟨v, bsv⟩, hv, h2⟩ := h
    simp only [Prod.mk.injEq] at h2
    rw [← h2.1]
    exact ⟨rfl, rfl, rfl⟩
  · simp only [Option.pure_def, Option.some.injEq, Prod.mk.injEq] at h
    rw [← h.1]
    exact ⟨rfl, rfl, rfl⟩

theorem pSliceCollocatedRefIdx_fields {spb : Spb} {bs : Bitstream} {spb1 : Spb}
    {bs1 : Bitstream} (h : pSliceCollocatedRefIdx spb bs = some (spb1, bs1)) :
    spb1.slice_type = spb.slice_type ∧
    spb1.num_ref_idx_l0_active_minus1 = spb.num_ref_idx_l0_active_minus1 ∧
    spb1.num_ref_idx_l1_active_minus1 = spb.num_ref_idx_l1_active_minus1 := by
  rw [pSliceCollocatedRefIdx] at h
  split at h
  · split at h
    · simp only [bind, Option.bind_eq_some, Option.pure_def, Option.some.injEq] at h
      obtain ⟨⟨v, bsv⟩, hv, h2⟩ := h
      simp only [Prod.mk.injEq] at h2
      rw [← h2.1]
      exact ⟨rfl, rfl, rfl⟩
    · simp only [Option.pure_def, Option.some.injEq, Prod.mk.injEq] at h
      rw [← h.1]
      exact ⟨rfl, rfl, rfl⟩
  · simp only [Option.pure_def, Option.some.injEq, Prod.mk.injEq] at h
    rw [← h.1]
    exact ⟨rfl, rfl, rfl⟩

theorem pSliceMergeCand_fields {spb : Spb} {bs : Bitstream} {spb1 : Spb}
    {bs1 : Bitstream} (h : pSliceMergeCand spb bs = some (spb1, bs1)) :
    spb1.slice_type = spb.slice_type ∧
    spb1.num_ref_idx_l0_active_minus1 = spb.num_ref_idx_l0_active_minus1 ∧
    spb1.num_ref_idx_l1_active_minus1 = spb.num_ref_idx_l1_active_minus1 := by
  rw [pSliceMergeCand] at h
  simp only [bind, Option.bind_eq_some, Option.pure_def, Option.some.injEq,
    Prod.mk.injEq] at h
  obtain ⟨⟨v, bsv⟩, hv, h2⟩ := h
  simp only [Prod.mk.injEq] at h2
  rw [← h2.1]
  exact ⟨rfl, rfl, rfl⟩

theorem parsePSliceOverrides_fields {ppb : Ppb} {spb : Spb} {bs : Bitstream}
    {spb1 : Spb} {bs1 : Bitstream}
    (h : parsePSliceOverrides ppb spb bs = some (spb1, bs1)) :
    spb1.slice_type = spb.slice_type ∧
    spb1.num_ref_idx_l1_active_minus1 = spb.num_ref_idx_l1_active_minus1 := by
  rw [parsePSliceOverrides] at h
  simp only [bind, Option.bind_eq_some] at h
  obtain ⟨⟨s1, b1⟩, h1, ⟨s2, b2⟩, h2, ⟨s3, b3⟩, h3, h4⟩ := h
  obtain ⟨t1, l1⟩ := pSliceNumRefOverride_fields h1
  obtain ⟨t2, -, l2⟩ := pSliceCabacInit_fields h2
  obtain ⟨t3, -, l3⟩ := pSliceCollocatedRefIdx_fields h3
  obtain ⟨t4, -, l4⟩ := pSliceMergeCand_fields h4
  exact ⟨by rw [t4, t3, t2, t1], by rw [l4, l3, l2, l1]⟩

theorem parseLoopFilterFlag_fields {ppb : Ppb} {spb : Spb} {bs : Bitstream}
    {spb1 : Spb} {bs1 : Bitstream}
    (h : parseLoopFilterFlag ppb spb bs = some (spb1, bs1)) :
    spb1.slice_type = spb.slice_type ∧
    spb1.num_ref_idx_l0_active_minus1 = spb.num_ref_idx_l0_active_minus1 ∧
    spb1.num_ref_idx_l1_active_minus1 = spb.num_ref_idx_l1_active_minus1 := by
  rw [parseLoopFilterFlag] at h
  split at h
  · simp only [bind, Option.bind_eq_some, Option.pure_def, Option.some.injEq] at h
    obtain ⟨⟨v, bsv⟩, hv, h2⟩ := h
    simp only [Prod.mk.injEq] at h2
    rw [← h2.1]
    exact ⟨rfl, rfl, rfl⟩
  · simp only [Option.pure_def, Option.some.injEq, Prod.mk.injEq] at h
    rw [← h.1]
    exact ⟨rfl, rfl, rfl⟩

end Receiver

namespace Receiver

theorem pSliceNumRefOverride_flag0 {spb : Spb} {bs bs0 : Bitstream} {spb1 : Spb}
    {bs1 : Bitstream} (hflag : BitstreamReadU bs 1 = some (0, bs0))
    (h : pSliceNumRefOverride spb bs = some (spb1, bs1)) :
    spb1 = spb ∧ bs1 = bs0 := by
  rw [pSliceNumRefOverride] at h
  simp only [bind, Option.bind_eq_some] at h
  obtain ⟨⟨flag, bsf⟩, hf, h⟩ := h
  rw [hflag] at hf
  simp only [Option.some.injEq, Prod.mk.injEq] at hf
  obtain ⟨rfl, rfl⟩ := hf
  split at h
  · simp at *
  · simp only [Option.pure_def, Option.some.injEq, Prod.mk.injEq] at h
    exact ⟨h.1.symm, h.2.symm⟩

theorem pSliceNumRefOverride_flag1 {spb : Spb} {bs bs0 : Bitstream} {v : Nat}
    {bsv : Bitstream} {spb1 : Spb} {bs1 : Bitstream}
    (hflag : BitstreamReadU bs 1 = some (1, bs0))
    (hv : BitstreamReadUE bs0 = some (v, bsv))
    (h : pSliceNumRefOverride spb bs = some (spb1, bs1)) :
    spb1 = { spb with num_ref_idx_l0_active_minus1 := v % 2 ^ 8 } ∧ bs1 = bsv := by
  rw [pSliceNumRefOverride] at h
  simp only [bind, Option.bind_eq_some] at h
  obtain ⟨⟨flag, bsf⟩, hf, h⟩ := h
  rw [hflag] at hf
  simp only [Option.some.injEq, Prod.mk.injEq] at hf
  obtain ⟨rfl, rfl⟩ := hf
  split at h
  · simp only [bind, Option.bind_eq_some, Option.pure_def, Option.some.injEq] at h
    obtain ⟨⟨w, bsw⟩, hw, h2⟩ := h
    rw [hv] at hw
    simp only [Option.some.injEq, Prod.mk.injEq] at hw
    obtain ⟨rfl, rfl⟩ := hw
    simp only [Prod.mk.injEq] at h2
    exact ⟨h2.1.symm, h2.2.symm⟩
  · simp at *

theorem parsePSliceOverrides_flag0 {ppb : Ppb} {spb : Spb} {bs bs0 : Bitstream}
    {spb1 : Spb} {bs1 : Bitstream} (hflag : BitstreamReadU bs 1 = some (0, bs0))
    (h : parsePSliceOverrides ppb spb bs = some (spb1, bs1)) :
    spb1.num_ref_idx_l0_active_minus1 = spb.num_ref_idx_l0_active_minus1 ∧
    spb1.num_ref_idx_l1_active_minus1 = spb.num_ref_idx_l1_active_minus1 := by
  rw [parsePSliceOverrides] at h
  simp only [bind, Option.bind_eq_some] at h
  obtain ⟨⟨s1, b1⟩, h1, ⟨s2, b2⟩, h2, ⟨s3, b3⟩, h3, h4⟩ := h
  obtain ⟨rfl, rfl⟩ := pSliceNumRefOverride_flag0 hflag h1
  obtain ⟨-, l2a, l2b⟩ := pSliceCabacInit_fields h2
  obtain ⟨-, l3a, l3b⟩ := pSliceCollocatedRefIdx_fields h3
  obtain ⟨-, l4a, l4b⟩ := pSliceMergeCand_fields h4
  exact ⟨by rw [l4a, l3a, l2a], by rw [l4b, l3b, l2b]⟩

theorem parsePSliceOverrides_flag1 {ppb : Ppb} {spb : Spb} {bs bs0 : Bitstream}
    {v : Nat} {bsv : Bitstream} {spb1 : Spb} {bs1 : Bitstream}
    (hflag : BitstreamReadU bs 1 = some (1, bs0))
    (hv : BitstreamReadUE bs0 = some (v, bsv))
    (h : parsePSliceOverrides ppb spb bs = some (spb1, bs1)) :
    spb1.num_ref_idx_l0_active_minus1 = v % 2 ^ 8 ∧
    spb1.num_ref_idx_l1_active_minus1 = spb.num_ref_idx_l1_active_minus1 := by
  rw [parsePSliceOverrides] at h
  simp only [bind, Option.bind_eq_some] at h
  obtain ⟨⟨s1, b1⟩, h1, ⟨s2, b2⟩, h2, ⟨s3, b3⟩, h3, h4⟩ := h
  obtain ⟨rfl, rfl⟩ := pSliceNumRefOverride_flag1 hflag hv h1
  obtain ⟨-, l2a, l2b⟩ := pSliceCabacInit_fields h2
  obtain ⟨-, l3a, l3b⟩ := pSliceCollocatedRefIdx_fields h3
  obtain ⟨-, l4a, l4b⟩ := pSliceMergeCand_fields h4
  exact ⟨by rw [l4a, l3a, l2a], by rw [l4b, l3b, l2b]⟩

end Receiver

namespace Receiver

theorem byteAlign_offset_mod (bs : Bitstream) :
    (BitstreamByteAlign bs).offset % 8 = 0 := by
  dsimp only [BitstreamByteAlign]
  omega

theorem parseStRpsChoice_defaults {ppb : Ppb} {bs : Bitstream} {ppb1 : Ppb}
    {bs1 : Bitstream} (h : parseStRpsChoice ppb bs = some (ppb1, bs1)) :
    ppb1.num_ref_idx_l0_default_active_minus1 = ppb.num_ref_idx_l0_default_active_minus1 ∧
    ppb1.num_ref_idx_l1_default_active_minus1 = ppb.num_ref_idx_l1_default_active_minus1 ∧
    ppb1.ReferenceFrames = ppb.ReferenceFrames := by
  rw [parseStRpsChoice] at h
  simp only [bind, Option.bind_eq_some] at h
  obtain ⟨⟨flag, bsf⟩, hf, h⟩ := h
  split at h
  · simp only [bind, Option.bind_eq_some, Option.pure_def, Option.some.injEq] at h
    obtain ⟨a, ha, h2⟩ := h
    simp only [Prod.mk.injEq] at h2
    rw [← h2.1]
    exact ⟨rfl, rfl, rfl⟩
  · split at h
    · simp only [bind, Option.bind_eq_some, Option.pure_def, Option.some.injEq] at h
      obtain ⟨⟨x, bsx⟩, hx, h2⟩ := h
      simp only [Prod.mk.injEq] at h2
      rw [← h2.1]
      exact ⟨rfl, rfl, rfl⟩
    · simp only [Option.pure_def, Option.some.injEq, Prod.mk.injEq] at h
      rw [← h.1]
      exact ⟨rfl, rfl, rfl⟩

theorem parseNonIdrSection_defaults {ppb : Ppb} {spb : Spb} {nal : Nat}
    {bs : Bitstream} {ppb1 : Ppb} {spb1 : Spb} {bs1 : Bitstream}
    (h : parseNonIdrSection ppb spb nal bs = some (ppb1, spb1, bs1)) :
    ppb1.num_ref_idx_l0_default_active_minus1 = ppb.num_ref_idx_l0_default_active_minus1 ∧
    ppb1.num_ref_idx_l1_default_active_minus1 = ppb.num_ref_idx_l1_default_active_minus1 ∧
    ppb1.ReferenceFrames = ppb.ReferenceFrames := by
  rw [parseNonIdrSection] at h
  split at h
  · rw [parseNonIdrPrefix] at h
    simp only [bind, Option.bind_eq_some, Option.pure_def, Option.some.injEq] at h
    obtain ⟨⟨p, bsp⟩, hp, ⟨q, bsq⟩, hq, ⟨r, bsr⟩, hr, h2⟩ := h
    simp only [Prod.mk.injEq] at h2
    rw [← h2.1]
    exact parseStRpsChoice_defaults hq
  · simp only [Option.pure_def, Option.some.injEq, Prod.mk.injEq] at h
    rw [← h.1]
    exact ⟨rfl, rfl, rfl⟩

theorem ParseSliceSegmentHeader_spec {ppb : Ppb} {nal : Nat} {bs : Bitstream}
    {ppb1 : Ppb} {spb1 : Spb} {bs1 : Bitstream}
    (h : ParseSliceSegmentHeader ppb nal bs = some (ppb1, spb1, bs1)) :
    BsEvolve bs bs1 ∧ bs1.offset % 8 = 0 ∧
    ppb1.ReferenceFrames = ppb.ReferenceFrames ∧
    spb1.num_ref_idx_l1_active_minus1 = ppb.num_ref_idx_l1_default_active_minus1 ∧
    (spb1.slice_type ≠ 1 →
      spb1.num_ref_idx_l0_active_minus1 = ppb.num_ref_idx_l0_default_active_minus1) ∧
    (spb1.slice_type = 1 →
      ∃ spbD bsD spbP bsP,
        spbD.num_ref_idx_l0_active_minus1 = ppb.num_ref_idx_l0_default_active_minus1 ∧
        spbD.num_ref_idx_l1_active_minus1 = ppb.num_ref_idx_l1_default_active_minus1 ∧
        spbD.slice_type = spb1.slice_type ∧
        parsePSliceOverrides ppb1 spbD bsD = some (spbP, bsP) ∧
        spb1.num_ref_idx_l0_active_minus1 = spbP.num_ref_idx_l0_active_minus1 ∧
        spb1.num_ref_idx_l1_active_minus1 = spbP.num_ref_idx_l1_active_minus1) := by
  rw [ParseSliceSegmentHeader] at h
  simp only [bind, Option.bind_eq_some] at h
  obtain ⟨a, ha, h⟩ := h
  obtain ⟨b, hb, h⟩ := h
  obtain ⟨c, hc, h⟩ := h
  obtain ⟨⟨st, bsd⟩, hst, h⟩ := h
  obtain ⟨⟨ppbN, spbN, bsN⟩, hN, h⟩ := h
  obtain ⟨⟨v1, bs2⟩, hv1, h⟩ := h
  split at h
  · exact Option.noConfusion h
  · simp only [bind, Option.bind_eq_some] at h
    obtain ⟨⟨v2, bs3⟩, hv2, h⟩ := h
    split at h
    · exact Option.noConfusion h
    · simp only [bind, Option.bind_eq_some] at h
      obtain ⟨⟨spbP, bsP⟩, hP, h⟩ := h
      obtain ⟨⟨q, bsq⟩, hq, h⟩ := h
      obtain ⟨⟨spbL, bsL⟩, hL, h⟩ := h
      simp only [Option.pure_def, Option.some.injEq, Prod.mk.injEq] at h
      obtain ⟨hppb, hspb, hbs⟩ := h
      subst hppb
      subst hspb
      subst hbs
      obtain ⟨hd0, hd1, hdr⟩ := parseNonIdrSection_defaults hN
      obtain ⟨hLt, hLl0, hLl1⟩ := parseLoopFilterFlag_fields hL
      dsimp only at hLt hLl0 hLl1
      have hev : BsEvolve bs (BitstreamByteAlign bsL) :=
        ((((((((((expectU_evolve ha).trans (parseNoOutputOfPriorPics_evolve hb)).trans
          (expectUE_evolve hc)).trans (BitstreamReadUE_evolve hst)).trans
          (parseNonIdrSection_evolve hN)).trans (BitstreamReadU_evolve hv1)).trans
          (BitstreamReadU_evolve hv2)).trans (parsePSliceSection_evolve hP)).trans
          (BitstreamReadSE_evolve hq)).trans (parseLoopFilterFlag_evolve hL)).trans
          (BitstreamByteAlign_evolve bsL)
      refine ⟨hev, byteAlign_offset_mod bsL, hdr, ?_, ?_, ?_⟩
      · rcases parsePSliceSection_spec hP with ⟨-, hPo⟩ | ⟨-, rfl, rfl⟩
        · obtain ⟨-, hol1⟩ := parsePSliceOverrides_fields hPo
          rw [hLl1, hol1]
          dsimp only
          exact hd1
        · rw [hLl1]
          dsimp only
          exact hd1
      · intro hnp
        rcases parsePSliceSection_spec hP with ⟨hpt, hPo⟩ | ⟨-, rfl, rfl⟩
        · obtain ⟨hot, -⟩ := parsePSliceOverrides_fields hPo
          dsimp only at hpt
          exact absurd (by rw [hLt, hot]; dsimp only; exact hpt) hnp
        · rw [hLl0]
          dsimp only
          exact hd0
      · intro hp
        rcases parsePSliceSection_spec hP with ⟨hpt, hPo⟩ | ⟨hpt, rfl, rfl⟩
        · refine ⟨_, _, _, _, ?_, ?_, ?_, hPo, ?_, ?_⟩
          · dsimp only
            exact hd0
          · dsimp only
            exact hd1
          · dsimp only at hpt ⊢
            rw [hpt]
            exact hp.symm ▸ rfl
          · obtain ⟨hot, -⟩ := parsePSliceOverrides_fields hPo
            rw [hLl0]
          · obtain ⟨-, hol1⟩ := parsePSliceOverrides_fields hPo
            rw [hLl1]
        · dsimp only at hpt
          exact absurd (by rw [← hLt] at hpt; exact hpt) (by rw [hp] at *; simp_all)

end Receiver

namespace Receiver

/-- A concrete picture-parameter state used by witnesses: P-slices read a
4-bit POC LSB, one SPS short-term RPS, no temporal MVP, no CABAC-init flag,
no cross-slice loop filter, and PPS default reference counts 5 (l0) / 7 (l1). -/
def wPpb : Ppb :=
  { log2_max_pic_order_cnt_lsb_minus4 := 0, num_short_term_ref_pic_sets := 1,
    num_ref_idx_l0_default_active_minus1 := 5,
    num_ref_idx_l1_default_active_minus1 := 7,
    sps_temporal_mvp_enabled_flag := 0, cabac_init_present_flag := 0,
    pps_loop_filter_across_slices_enabled_flag := 0, st_rps_bits := 0,
    CurrPic := ⟨0, 0, 0⟩, ReferenceFrames := List.replicate 15 ⟨0, 0, 0⟩,
    NoPicReorderingFlag := 0, NoBiPredFlag := 0, RapPicFlag := 0,
    IdrPicFlag := 0, IntraPicFlag := 0 }

/-- C8: for every successfully parsed slice header, the active reference
counts are initialised from the PPS defaults (`num_ref_idx_l0/l1_default`)
before the P-slice override branch: the l1 count always equals the PPS
default, a non-P slice keeps the l0 default, and a P slice runs the override
block on a state already holding the defaults; within that block, when
`num_ref_idx_active_override_flag` reads 0 the counts pass through
unchanged, and when it reads 1 the l0 count is overwritten by the
exp-Golomb value read (as a `uint8_t`). -/
theorem p_slice_ref_count_defaults :
    (∀ (ppb : Ppb) (nal : Nat) (bs : Bitstream) (ppb1 : Ppb) (spb1 : Spb)
        (bs1 : Bitstream),
      ParseSliceSegmentHeader ppb nal bs = some (ppb1, spb1, bs1) →
        spb1.num_ref_idx_l1_active_minus1 =
            ppb.num_ref_idx_l1_default_active_minus1 ∧
          (spb1.slice_type ≠ 1 →
            spb1.num_ref_idx_l0_active_minus1 =
              ppb.num_ref_idx_l0_default_active_minus1) ∧
          (spb1.slice_type = 1 →
            ∃ spbD bsD spbP bsP,
              spbD.num_ref_idx_l0_active_minus1 =
                  ppb.num_ref_idx_l0_default_active_minus1 ∧
                spbD.num_ref_idx_l1_active_minus1 =
                  ppb.num_ref_idx_l1_default_active_minus1 ∧
                spbD.slice_type = spb1.slice_type ∧
                parsePSliceOverrides ppb1 spbD bsD = some (spbP, bsP) ∧
                spb1.num_ref_idx_l0_active_minus1 =
                  spbP.num_ref_idx_l0_active_minus1 ∧
                spb1.num_ref_idx_l1_active_minus1 =
                  spbP.num_ref_idx_l1_active_minus1)) ∧
    (∀ (ppb : Ppb) (spb : Spb) (bs bs0 : Bitstream) (spb1 : Spb) (bs1 : Bitstream),
      BitstreamReadU bs 1 = some (0, bs0) →
      parsePSliceOverrides ppb spb bs = some (spb1, bs1) →
      spb1.num_ref_idx_l0_active_minus1 = spb.num_ref_idx_l0_active_minus1 ∧
        spb1.num_ref_idx_l1_active_minus1 = spb.num_ref_idx_l1_active_minus1) ∧
    (∀ (ppb : Ppb) (spb : Spb) (bs bs0 : Bitstream) (v : Nat) (bsv : Bitstream)
        (spb1 : Spb) (bs1 : Bitstream),
      BitstreamReadU bs 1 = some (1, bs0) →
      BitstreamReadUE bs0 = some (v, bsv) →
      parsePSliceOverrides ppb spb bs = some (spb1, bs1) →
      spb1.num_ref_idx_l0_active_minus1 = v % 2 ^ 8 ∧
        spb1.num_ref_idx_l1_active_minus1 = spb.num_ref_idx_l1_active_minus1) :=
  ⟨fun _ _ _ _ _ _ h => (ParseSliceSegmentHeader_spec h).2.2.2,
   fun _ _ _ _ _ _ hflag h => parsePSliceOverrides_flag0 hflag h,
   fun _ _ _ _ _ _ _ _ hflag hv h => parsePSliceOverrides_flag1 hflag hv h⟩

/-- Witness for C8: the concrete P slice `D0 76` parsed with `wPpb` keeps the
PPS default l1 count 7; with the override flag absent (`7F`) the l0 count
passes through as 0, and with it present (`FF`) the l0 count becomes the
value read (0). -/
theorem p_slice_ref_count_defaults_witness :
    (ParseSliceSegmentHeader wPpb 1 (BitstreamCreate [0xD0, 0x76])).map
        (fun r => r.2.1.num_ref_idx_l1_active_minus1) = some 7 ∧
    (parsePSliceOverrides wPpb zeroSpb (BitstreamCreate [0x7F])).map
        (fun r => r.1.num_ref_idx_l0_active_minus1) = some 0 ∧
    (parsePSliceOverrides wPpb zeroSpb (BitstreamCreate [0xFF])).map
        (fun r => r.1.num_ref_idx_l0_active_minus1) = some 0 := by
  refine ⟨?_, ?_, ?_⟩
  · match heq : ParseSliceSegmentHeader wPpb 1 (BitstreamCreate [0xD0, 0x76]) with
    | none => exact absurd heq (by decide)
    | some (ppb1, spb1, bs1) =>
        have h := (p_slice_ref_count_defaults.1 _ _ _ _ _ _ heq).1
        simp only [Option.map_some']
        rw [h]
        rfl
  · match heq : parsePSliceOverrides wPpb zeroSpb (BitstreamCreate [0x7F]) with
    | none => exact absurd heq (by decide)
    | some (spb1, bs1) =>
        have h := (p_slice_ref_count_defaults.2.1 wPpb zeroSpb
          (BitstreamCreate [0x7F]) ⟨[0x7F], 1, 0, 0x7F⟩ _ _ (by decide) heq).1
        simp only [Option.map_some']
        rw [h]
        rfl
  · match heq : parsePSliceOverrides wPpb zeroSpb (BitstreamCreate [0xFF]) with
    | none => exact absurd heq (by decide)
    | some (spb1, bs1) =>
        have h := (p_slice_ref_count_defaults.2.2 wPpb zeroSpb
          (BitstreamCreate [0xFF]) ⟨[0xFF], 1, 0, 0xFF⟩ 0 ⟨[0xFF], 2, 0, 0xFF⟩ _ _
          (by decide) (by decide) heq).1
        simp only [Option.map_some']
        rw [h]
        rfl

end Receiver

namespace Receiver

def VA_SLICE_DATA_FLAG_ALL : Nat := 0

/-- The picture-parameter assignments of `MFXVideoDECODE_DecodeFrameAsync`
(mfxvideo.c:596-608): current picture id and POC, invalidation of all
reference entries, and the per-picture flags derived from the NAL unit type
ranges (`BLA_W_LP = 16`, `IDR_W_RADL = 19`, `IDR_N_LP = 20`, `CRA_NUT = 21`,
`RSV_IRAP_VCL23 = 23`). -/
def setPictureDecodeFields (ppb : Ppb) (nal_unit_type : Nat) (picture_id : Nat)
    (local_frame_counter : Nat) : Ppb :=
  { ppb with
    CurrPic := { ppb.CurrPic with picture_id := picture_id,
                                   pic_order_cnt := toInt32Nat local_frame_counter },
    ReferenceFrames := ppb.ReferenceFrames.map
      (fun p => { p with picture_id := VA_INVALID_SURFACE }),
    NoPicReorderingFlag := 1,
    NoBiPredFlag := 1,
    RapPicFlag := if 16 ≤ nal_unit_type ∧ nal_unit_type ≤ 21 then 1 else 0,
    IdrPicFlag := if 19 ≤ nal_unit_type ∧ nal_unit_type ≤ 20 then 1 else 0,
    IntraPicFlag := if 16 ≤ nal_unit_type ∧ nal_unit_type ≤ 23 then 1 else 0 }

/-- The slice-parameter assignments of `MFXVideoDECODE_DecodeFrameAsync`
(mfxvideo.c:609-620): sizes, the EPB-adjusted slice-data byte offset
`(offset >> 3) - epb_count` as `uint32_t`, the reference list initialised to
`0xff`, and the EPB count as `uint16_t`. -/
def setSliceDecodeFields (spb : Spb) (nalu : Bitstream) : Spb :=
  { spb with
    slice_data_size := nalu.data.length % 2 ^ 32,
    slice_data_offset := 0,
    slice_data_flag := VA_SLICE_DATA_FLAG_ALL,
    slice_data_byte_offset := (nalu.offset / 8 - nalu.epb_count) % 2 ^ 32,
    RefPicList := List.replicate 2 (List.replicate 15 0xff),
    LastSliceOfPic := 1,
    slice_data_num_emu_prevn_bytes := nalu.epb_count % 2 ^ 16 }

/-- The decoder-session state of `struct _mfxSession` used by
`MFXVideoDECODE_DecodeFrameAsync`: the two frame counters (`size_t`), the
allocated memory ids, the crop rectangle, and the parameter blocks. -/
structure Session where
  global_frame_counter : Nat
  local_frame_counter : Nat
  mids : List Nat
  crop_rect : List Nat
  ppb : Ppb
  spb : Spb
  deriving Repr, DecidableEq

/-- The `mfxFrameSurface1` fields written when a frame is published
(mfxvideo.c:650-657). -/
structure FrameSurface where
  CropX : Nat
  CropY : Nat
  CropW : Nat
  CropH : Nat
  MemId : Nat
  deriving Repr, DecidableEq

/-- One slice iteration of `MFXVideoDECODE_DecodeFrameAsync`
(mfxvideo.c:584-657) on its success path: parse the slice segment header,
pick the current surface `mids[global_frame_counter % mids_count]`, reset
the local counter on `IDR_W_RADL`, populate the picture and slice parameter
blocks, fill reference slot 0 from the previous surface when the local
counter is nonzero, and on success increment both counters and publish the
current surface with the crop rectangle.  The external accelerator calls
(`GetHDL`, modelled by `hdl`, and `UploadAndDecode`) are taken to succeed;
`size_t` arithmetic is modulo `2 ^ 64`. -/
def decodeSlice (hdl : Nat → Nat) (s : Session) (nal_unit_type : Nat)
    (nalu : Bitstream) : Option (Session × FrameSurface) :=
  match ParseSliceSegmentHeader s.ppb nal_unit_type nalu with
  | none => none
  | some (ppb, spb, nalu) =>
    let mid_current := s.mids.getD (s.global_frame_counter % s.mids.length) 0
    let local0 := if nal_unit_type = 19 then 0 else s.local_frame_counter
    let ppb := setPictureDecodeFields ppb nal_unit_type (hdl mid_current) local0
    let spb := setSliceDecodeFields spb nalu
    let refPair :=
      if local0 ≠ 0 then
        let mid_prev := s.mids.getD
          (((s.global_frame_counter + (2 ^ 64 - 1)) % 2 ^ 64) % s.mids.length) 0
        ({ ppb with ReferenceFrames :=
                      ppb.ReferenceFrames.set 0
                        { picture_id := hdl mid_prev,
                          pic_order_cnt := toInt32Nat local0 - 1,
                          flags := VA_PICTURE_HEVC_RPS_ST_CURR_BEFORE } },
         { spb with RefPicList :=
                      spb.RefPicList.set 0 ((spb.RefPicList.getD 0 []).set 0 0) })
      else (ppb, spb)
    some ({ s with ppb := refPair.1, spb := refPair.2,
                   global_frame_counter := (s.global_frame_counter + 1) % 2 ^ 64,
                   local_frame_counter := (local0 + 1) % 2 ^ 64 },
          { CropX := s.crop_rect.getD 0 0, CropY := s.crop_rect.getD 1 0,
            CropW := s.crop_rect.getD 2 0, CropH := s.crop_rect.getD 3 0,
            MemId := mid_current })

end Receiver

namespace Receiver

/-- A concrete decoder-session state used by witnesses: one frame already
decoded, a three-surface pool with memory ids 10, 11, 12, and a 640×480
crop rectangle. -/
def wSession : Session :=
  { global_frame_counter := 1, local_frame_counter := 1, mids := [10, 11, 12],
    crop_rect := [0, 0, 640, 480], ppb := wPpb, spb := zeroSpb }

/-- C3: after the slice-segment header has been parsed and the reader
byte-aligned, the slice-data byte offset handed to the accelerator equals
`(offset >> 3) - epb_count` (as `uint32_t`) — the reader's byte position
with the elided emulation-prevention bytes subtracted and, as the
subtraction never wraps (`8 * epb_count ≤ offset` is preserved), a genuine
difference — and the EPB count is passed alongside it (as `uint16_t`). -/
theorem slice_data_byte_offset_correct :
    ∀ (hdl : Nat → Nat) (s : Session) (nal : Nat) (nalu : Bitstream)
      (s1 : Session) (out : FrameSurface),
      8 * nalu.epb_count ≤ nalu.offset →
      decodeSlice hdl s nal nalu = some (s1, out) →
      ∃ ppb1 spb1 bs1,
        ParseSliceSegmentHeader s.ppb nal nalu = some (ppb1, spb1, bs1) ∧
        bs1.offset % 8 = 0 ∧
        8 * bs1.epb_count ≤ bs1.offset ∧
        s1.spb.slice_data_byte_offset = (bs1.offset / 8 - bs1.epb_count) % 2 ^ 32 ∧
        s1.spb.slice_data_num_emu_prevn_bytes = bs1.epb_count % 2 ^ 16 := by
  intro hdl s nal nalu s1 out hepb h
  rw [decodeSlice] at h
  match hp : ParseSliceSegmentHeader s.ppb nal nalu with
  | none => rw [hp] at h; exact absurd h (by simp)
  | some (ppb1, spb1, bs1) =>
      rw [hp] at h
      dsimp only at h
      obtain ⟨hev, halign, -, -, -, -⟩ := ParseSliceSegmentHeader_spec hp
      simp only [Option.some.injEq, Prod.mk.injEq] at h
      obtain ⟨hs1, -⟩ := h
      refine ⟨ppb1, spb1, bs1, rfl, halign, ?_, ?_, ?_⟩
      · obtain ⟨-, ho, he, hr⟩ := hev
        omega
      · rw [← hs1]
        dsimp only
        split <;> first | rfl | (split <;> rfl)
      · rw [← hs1]
        dsimp only
        split <;> first | rfl | (split <;> rfl)

/-- Witness for C3: decoding the concrete P slice `D0 76` in `wSession`
records slice-data byte offset 2 (16 bits consumed, no EPB) and EPB count 0. -/
theorem slice_data_byte_offset_correct_witness :
    (decodeSlice (fun x => x + 100) wSession 1 (BitstreamCreate [0xD0, 0x76])).map
      (fun r => (r.1.spb.slice_data_byte_offset,
                 r.1.spb.slice_data_num_emu_prevn_bytes)) = some (2, 0) := by
  match heq : decodeSlice (fun x => x + 100) wSession 1 (BitstreamCreate [0xD0, 0x76]) with
  | none => exact absurd heq (by decide)
  | some (s1, out) =>
      obtain ⟨ppb1, spb1, bs1, hp, -, -, hoff, hemu⟩ :=
        slice_data_byte_offset_correct (fun x => x + 100) wSession 1
          (BitstreamCreate [0xD0, 0x76]) s1 out (by decide) heq
      have hbs1 : bs1.offset = 16 ∧ bs1.epb_count = 0 := by
        have hconc : ¬ (∃ p, ParseSliceSegmentHeader wPpb 1
            (BitstreamCreate [0xD0, 0x76]) = some p ∧
            ¬ (p.2.2.offset = 16 ∧ p.2.2.epb_count = 0)) := by decide
        push_neg at hconc
        exact hconc (ppb1, spb1, bs1) hp
      simp only [Option.map_some']
      rw [hoff, hemu, hbs1.1, hbs1.2]
      rfl

end Receiver

namespace Receiver

/-- C4: reference discipline of the decoder session.  On a successful decode
the current surface is `mids[global mod pool_size]` (both in `CurrPic` and
in the published output), IDR (`nal_unit_type = 19`) resets the local
counter (so its POC is 0 and the local counter ends at 1), when the
effective local counter is zero all reference entries are invalidated and
the reference list stays all-`0xff`, when it is positive reference slot 0
carries the previous surface `mids[(global - 1) mod pool_size]` with
`pic_order_cnt = local - 1` flagged short-term-before and
`RefPicList[0][0] = 0`, and both counters increment. -/
theorem decode_reference_discipline :
    ∀ (hdl : Nat → Nat) (s : Session) (nal : Nat) (nalu : Bitstream)
      (s1 : Session) (out : FrameSurface),
      decodeSlice hdl s nal nalu = some (s1, out) →
      s.global_frame_counter + 1 < 2 ^ 64 →
      s.local_frame_counter + 1 < 2 ^ 64 →
      0 < s.ppb.ReferenceFrames.length →
      (s1.global_frame_counter = s.global_frame_counter + 1 ∧
        s1.local_frame_counter = (if nal = 19 then 0 else s.local_frame_counter) + 1) ∧
      s1.ppb.CurrPic.picture_id =
        hdl (s.mids.getD (s.global_frame_counter % s.mids.length) 0) ∧
      s1.ppb.CurrPic.pic_order_cnt =
        toInt32Nat (if nal = 19 then 0 else s.local_frame_counter) ∧
      out.MemId = s.mids.getD (s.global_frame_counter % s.mids.length) 0 ∧
      ((if nal = 19 then 0 else s.local_frame_counter) = 0 →
        (∀ p ∈ s1.ppb.ReferenceFrames, p.picture_id = VA_INVALID_SURFACE) ∧
        s1.spb.RefPicList = List.replicate 2 (List.replicate 15 0xff)) ∧
      (0 < (if nal = 19 then 0 else s.local_frame_counter) →
        0 < s.global_frame_counter →
        (s1.ppb.ReferenceFrames.getD 0 ⟨0, 0, 0⟩).picture_id =
          hdl (s.mids.getD ((s.global_frame_counter - 1) % s.mids.length) 0) ∧
        (s1.ppb.ReferenceFrames.getD 0 ⟨0, 0, 0⟩).pic_order_cnt =
          toInt32Nat (if nal = 19 then 0 else s.local_frame_counter) - 1 ∧
        (s1.ppb.ReferenceFrames.getD 0 ⟨0, 0, 0⟩).flags =
          VA_PICTURE_HEVC_RPS_ST_CURR_BEFORE ∧
        (s1.spb.RefPicList.getD 0 []).getD 0 0xff = 0) := by
  intro hdl s nal nalu s1 out h hg64 hl64 hrefs
  rw [decodeSlice] at h
  match hp : ParseSliceSegmentHeader s.ppb nal nalu with
  | none => rw [hp] at h; exact absurd h (by simp)
  | some (ppb1, spb1, bs1) =>
      rw [hp] at h
      dsimp only at h
      obtain ⟨-, -, hdr, -⟩ := ParseSliceSegmentHeader_spec hp
      simp only [Option.some.injEq, Prod.mk.injEq] at h
      obtain ⟨hs1, hout⟩ := h
      subst hs1
      subst hout
      dsimp only
      refine ⟨⟨by omega, ?_⟩, ?_, ?_, rfl, ?_, ?_⟩
      · split <;> omega
      · split <;> (try split) <;> rfl
      · split <;> (try split) <;> rfl
      · intro hl0
        rw [if_neg (by omega : ¬ (if nal = 19 then 0 else s.local_frame_counter) ≠ 0)]
        constructor
        · intro p hp2
          dsimp only [setPictureDecodeFields] at hp2
          simp only [List.mem_map] at hp2
          obtain ⟨q, -, hq⟩ := hp2
          rw [← hq]
        · rfl
      · intro hl0 hg0
        rw [if_pos (by omega : (if nal = 19 then 0 else s.local_frame_counter) ≠ 0)]
        have hmod : (s.global_frame_counter + (2 ^ 64 - 1)) % 2 ^ 64 =
            s.global_frame_counter - 1 := by omega
        have hlen : 0 < ((setPictureDecodeFields ppb1 nal
            (hdl (s.mids.getD (s.global_frame_counter % s.mids.length) 0))
            (if nal = 19 then 0 else s.local_frame_counter)).ReferenceFrames).length := by
          dsimp only [setPictureDecodeFields]
          rw [List.length_map, hdr]
          exact hrefs
        refine ⟨?_, ?_, ?_, rfl⟩
        · dsimp only
          rw [List.getD_eq_getElem?_getD, List.getElem?_set_self hlen]
          dsimp only [Option.getD_some]
          rw [hmod]
        · dsimp only
          rw [List.getD_eq_getElem?_getD, List.getElem?_set_self hlen]
          try rfl
        · dsimp only
          rw [List.getD_eq_getElem?_getD, List.getElem?_set_self hlen]
          try rfl

end Receiver

namespace Receiver

/-- Witness for C4: decoding the P slice `D0 76` in `wSession`
(`global = local = 1`, pool `[10, 11, 12]`, `hdl = (+100)`): the current
surface is `mids[1] = 11` (id 111), reference slot 0 carries `mids[0] = 10`
(id 110) with POC 0 flagged short-term-before, `RefPicList[0][0] = 0`, and
both counters advance to 2. -/
theorem decode_reference_discipline_witness :
    (decodeSlice (fun x => x + 100) wSession 1 (BitstreamCreate [0xD0, 0x76])).map
      (fun r => (r.1.global_frame_counter, r.1.local_frame_counter,
                 r.1.ppb.CurrPic.picture_id,
                 (r.1.ppb.ReferenceFrames.getD 0 ⟨0, 0, 0⟩).picture_id,
                 (r.1.ppb.ReferenceFrames.getD 0 ⟨0, 0, 0⟩).pic_order_cnt,
                 (r.1.ppb.ReferenceFrames.getD 0 ⟨0, 0, 0⟩).flags,
                 (r.1.spb.RefPicList.getD 0 []).getD 0 0xff, r.2.MemId)) =
      some (2, 2, 111, 110, 0, 16, 0, 11) := by
  match heq : decodeSlice (fun x => x + 100) wSession 1 (BitstreamCreate [0xD0, 0x76]) with
  | none => exact absurd heq (by decide)
  | some (s1, out) =>
      obtain ⟨⟨hg, hl⟩, hc, hpoc, hmem, -, href⟩ :=
        decode_reference_discipline (fun x => x + 100) wSession 1
          (BitstreamCreate [0xD0, 0x76]) s1 out heq (by decide) (by decide) (by decide)
      obtain ⟨h1, h2, h3, h4⟩ := href (by decide) (by decide)
      simp only [Option.map_some']
      rw [hg, hl, hc, h1, h2, h3, h4, hmem]
      rfl

end Receiver

namespace Receiver

/-- `struct AtomicQueue` (atomic_queue.h): an owned byte region of `alloc`
bytes (modelled as a total function from positions to bytes), a consumer
`read` index, a producer `write` index, and the atomic byte count `size`.
The SPSC operations are modelled as atomic sequential steps; the
acquire/release pairing on `size` is what makes this interleaving-level
model sound for the two-thread use. -/
structure AtomicQueue where
  buffer : Nat → Nat
  alloc : Nat
  read : Nat
  write : Nat
  size : Nat

/-- `AtomicQueueCreate` (atomic_queue.c:27-36): fresh zeroed state. -/
def AtomicQueueCreate (alloc : Nat) : AtomicQueue :=
  { buffer := fun _ => 0, alloc := alloc, read := 0, write := 0, size := 0 }

def min3 (a b c : Nat) : Nat := min (min a b) c

/-- `memcpy(base + dst, src, src.length)` on the modelled byte region. -/
def memcpyAt (buffer : Nat → Nat) (dst : Nat) (src : List Nat) : Nat → Nat :=
  fun p => if dst ≤ p ∧ p < dst + src.length then src.getD (p - dst) 0 else buffer p

/-- `AtomicQueueWrite` (atomic_queue.c:38-57): free space is
`alloc - size` (acquire), up to two `memcpy` segments respecting the tail,
producer index advanced modulo `alloc`, `size += written` (release).
Returns the number of bytes accepted. -/
def AtomicQueueWrite (q : AtomicQueue) (src : List Nat) : Nat × AtomicQueue :=
  let capacity := q.alloc - q.size
  let tail_size := q.alloc - q.write
  let copy1 := min3 src.length capacity tail_size
  let buf1 := memcpyAt q.buffer q.write (src.take copy1)
  let copy2 := min (src.length - copy1) (capacity - copy1)
  let buf2 := memcpyAt buf1 0 ((src.drop copy1).take copy2)
  let offset := copy1 + copy2
  (offset,
   { q with buffer := buf2, write := (q.write + offset) % q.alloc,
            size := q.size + offset })

/-- `AtomicQueueRead` (atomic_queue.c:59-77): available bytes are `size`
(acquire), up to two copy segments respecting the tail, consumer index
advanced modulo `alloc`, `size -= read` (release).  Returns the bytes
delivered to the caller's buffer. -/
def AtomicQueueRead (q : AtomicQueue) (size : Nat) : List Nat × AtomicQueue :=
  let avail := q.size
  let tail_size := q.alloc - q.read
  let copy1 := min3 size avail tail_size
  let out1 := (List.range copy1).map (fun i => q.buffer (q.read + i))
  let copy2 := min (size - copy1) (avail - copy1)
  let out2 := (List.range copy2).map (fun i => q.buffer i)
  let offset := copy1 + copy2
  (out1 ++ out2,
   { q with read := (q.read + offset) % q.alloc, size := q.size - offset })

/-- An interleaving of producer writes and consumer reads. -/
inductive QueueOp where
  | write (bytes : List Nat)
  | read (count : Nat)

/-- Run an interleaving; returns the final queue state, the concatenation of
all bytes accepted by writes, and the concatenation of all bytes returned by
reads. -/
def runTrace (q : AtomicQueue) : List QueueOp → AtomicQueue × List Nat × List Nat
  | [] => (q, [], [])
  | QueueOp.write bytes :: ops =>
    let r := AtomicQueueWrite q bytes
    let rest := runTrace r.2 ops
    (rest.1, bytes.take r.1 ++ rest.2.1, rest.2.2)
  | QueueOp.read count :: ops =>
    let r := AtomicQueueRead q count
    let rest := runTrace r.2 ops
    (rest.1, rest.2.1, r.1 ++ rest.2.2)

/-- The representation invariant of the ring: `size` counts the pending
bytes, which live at positions `read, read+1, …` modulo `alloc`, and the
producer index sits `size` past the consumer index. -/
def QueueInv (q : AtomicQueue) (pending : List Nat) : Prop :=
  0 < q.alloc ∧ q.size = pending.length ∧ q.size ≤ q.alloc ∧
    q.read < q.alloc ∧ q.write = (q.read + q.size) % q.alloc ∧
    ∀ i, i < q.size → q.buffer ((q.read + i) % q.alloc) = pending.getD i 0

end Receiver

namespace Receiver

theorem take_getD {l : List Nat} {k i : Nat} (h : i < k) :
    (l.take k).getD i 0 = l.getD i 0 := by
  simp [List.getD_eq_getElem?_getD, List.getElem?_take_of_lt h]

theorem drop_getD {l : List Nat} {k i : Nat} :
    (l.drop k).getD i 0 = l.getD (k + i) 0 := by
  simp [List.getD_eq_getElem?_getD, List.getElem?_drop]

theorem append_getD_left {l1 l2 : List Nat} {i : Nat} (h : i < l1.length) :
    (l1 ++ l2).getD i 0 = l1.getD i 0 := by
  simp [List.getD_eq_getElem?_getD, List.getElem?_append_left h]

theorem append_getD_right {l1 l2 : List Nat} {i : Nat} (h : l1.length ≤ i) :
    (l1 ++ l2).getD i 0 = l2.getD (i - l1.length) 0 := by
  simp [List.getD_eq_getElem?_getD, List.getElem?_append_right h]

theorem range_map_getD_take {l : List Nat} {k : Nat} (h : k ≤ l.length) :
    (List.range k).map (fun i => l.getD i 0) = l.take k := by
  apply List.ext_getElem
  · simp
    omega
  · intro n h1 h2
    simp only [List.getElem_map, List.getElem_range, List.getElem_take]
    rw [List.getD_eq_getElem?_getD, List.getElem?_eq_getElem (by simp at h1; omega)]
    rfl

theorem ring_pos_ne {alloc read i j : Nat} (h0 : 0 < alloc) (hi : i < alloc)
    (hj : j < alloc) (hne : i ≠ j) :
    (read + i) % alloc ≠ (read + j) % alloc := by
  intro heq
  have hmod : i % alloc = j % alloc := Nat.ModEq.add_left_cancel' read heq
  rw [Nat.mod_eq_of_lt hi, Nat.mod_eq_of_lt hj] at hmod
  exact hne hmod

end Receiver


namespace Receiver

theorem AtomicQueueWrite_spec {q : AtomicQueue} {pending : List Nat}
    (src : List Nat) (hinv : QueueInv q pending) :
    (AtomicQueueWrite q src).1 = min src.length (q.alloc - q.size) ∧
    QueueInv (AtomicQueueWrite q src).2
      (pending ++ src.take (min src.length (q.alloc - q.size))) := by
  obtain ⟨h0, hsz, hcap, hrd, hwr, hbuf⟩ := hinv
  have hwlt : q.write < q.alloc := by rw [hwr]; exact Nat.mod_lt _ h0
  have hshift : ∀ u, (q.write + u) % q.alloc = (q.read + (q.size + u)) % q.alloc := by
    intro u
    rw [hwr, Nat.mod_add_mod, Nat.add_assoc]
  rw [AtomicQueueWrite]
  dsimp only
  have hoff : min3 src.length (q.alloc - q.size) (q.alloc - q.write) +
      min (src.length - min3 src.length (q.alloc - q.size) (q.alloc - q.write))
        ((q.alloc - q.size) - min3 src.length (q.alloc - q.size) (q.alloc - q.write)) =
      min src.length (q.alloc - q.size) := by
    simp only [min3]
    omega
  have hc1b : min3 src.length (q.alloc - q.size) (q.alloc - q.write) ≤ src.length ∧
      min3 src.length (q.alloc - q.size) (q.alloc - q.write) ≤ q.alloc - q.size ∧
      min3 src.length (q.alloc - q.size) (q.alloc - q.write) ≤ q.alloc - q.write := by
    simp only [min3]
    omega
  have hc2pos : 0 < min (src.length - min3 src.length (q.alloc - q.size) (q.alloc - q.write))
      ((q.alloc - q.size) - min3 src.length (q.alloc - q.size) (q.alloc - q.write)) →
      q.write + min3 src.length (q.alloc - q.size) (q.alloc - q.write) = q.alloc := by
    simp only [min3]
    omega
  generalize hgc1 : min3 src.length (q.alloc - q.size) (q.alloc - q.write) = c1
  rw [hgc1] at hoff hc1b hc2pos
  have hc2b : min (src.length - c1) ((q.alloc - q.size) - c1) ≤ src.length - c1 ∧
      min (src.length - c1) ((q.alloc - q.size) - c1) ≤ (q.alloc - q.size) - c1 := by
    omega
  generalize hgc2 : min (src.length - c1) ((q.alloc - q.size) - c1) = c2
  rw [hgc2] at hoff hc2pos hc2b
  have hlen1 : (src.take c1).length = c1 := by
    rw [List.length_take]
    omega
  have hlen2 : ((src.drop c1).take c2).length = c2 := by
    rw [List.length_take, List.length_drop]
    omega
  refine ⟨hoff, h0, ?_, ?_, hrd, ?_, ?_⟩
  · dsimp only
    rw [List.length_append, List.length_take]
    omega
  · dsimp only
    omega
  · dsimp only
    rw [hoff]
    rw [hshift (min src.length (q.alloc - q.size))]
  · dsimp only
    intro i hi
    simp only [memcpyAt]
    rw [hlen1, hlen2]
    have hpos : (q.read + i) % q.alloc < q.alloc := Nat.mod_lt _ h0
    by_cases hiold : i < q.size
    · rw [if_neg ?notin2, if_neg ?notin1]
      case notin1 =>
        rintro ⟨hle, hlt⟩
        have heq2 : (q.read + i) % q.alloc =
            (q.read + (q.size + ((q.read + i) % q.alloc - q.write))) % q.alloc := by
          rw [← hshift]
          rw [(by omega : q.write + ((q.read + i) % q.alloc - q.write) =
            (q.read + i) % q.alloc)]
          exact (Nat.mod_eq_of_lt hpos).symm
        exact ring_pos_ne h0 (by omega) (by omega) (by omega) heq2
      case notin2 =>
        rintro ⟨-, hlt⟩
        have hwc1 : q.write + c1 = q.alloc := hc2pos (by omega)
        have heq2 : (q.read + i) % q.alloc =
            (q.read + (q.size + (c1 + (q.read + i) % q.alloc))) % q.alloc := by
          rw [← hshift]
          rw [← Nat.add_assoc, hwc1]
          rw [Nat.add_mod_left]
          rw [Nat.mod_eq_of_lt hpos]
        exact ring_pos_ne h0 (by omega) (by omega) (by omega) heq2
      · rw [hbuf i hiold]
        rw [append_getD_left (by omega)]
    · have hposw : (q.read + i) % q.alloc = (q.write + (i - q.size)) % q.alloc := by
        rw [hshift]
        congr 1
        omega
      by_cases hu1 : i - q.size < c1
      · have hlt : q.write + (i - q.size) < q.alloc := by omega
        have hpe : (q.read + i) % q.alloc = q.write + (i - q.size) := by
          rw [hposw, Nat.mod_eq_of_lt hlt]
        rw [hpe]
        rw [if_neg ?notin2b, if_pos (by omega)]
        case notin2b =>
          rintro ⟨-, habs⟩
          have hwc1 : q.write + c1 = q.alloc := hc2pos (by omega)
          omega
        · rw [(by omega : q.write + (i - q.size) - q.write = i - q.size)]
          rw [take_getD hu1]
          rw [append_getD_right (by omega)]
          rw [take_getD (by omega)]
          congr 1
          omega
      · have hc2p : 0 < c2 := by omega
        have hwc1 : q.write + c1 = q.alloc := hc2pos hc2p
        have hpe : (q.read + i) % q.alloc = i - q.size - c1 := by
          rw [hposw]
          rw [(by omega : q.write + (i - q.size) = q.alloc + (i - q.size - c1))]
          rw [Nat.add_mod_left, Nat.mod_eq_of_lt (by omega)]
        rw [hpe]
        rw [if_pos (by omega)]
        rw [(by omega : i - q.size - c1 - 0 = i - q.size - c1)]
        rw [take_getD (by omega)]
        rw [drop_getD]
        rw [append_getD_right (by omega)]
        rw [take_getD (by omega)]
        congr 1
        omega


theorem AtomicQueueRead_spec {q : AtomicQueue} {pending : List Nat}
    (count : Nat) (hinv : QueueInv q pending) :
    (AtomicQueueRead q count).1 = pending.take (min count q.size) ∧
    QueueInv (AtomicQueueRead q count).2 (pending.drop (min count q.size)) := by
  obtain ⟨h0, hsz, hcap, hrd, hwr, hbuf⟩ := hinv
  rw [AtomicQueueRead]
  dsimp only
  have hoff : min3 count q.size (q.alloc - q.read) +
      min (count - min3 count q.size (q.alloc - q.read))
        (q.size - min3 count q.size (q.alloc - q.read)) = min count q.size := by
    simp only [min3]
    omega
  have hc1b : min3 count q.size (q.alloc - q.read) ≤ count ∧
      min3 count q.size (q.alloc - q.read) ≤ q.size ∧
      min3 count q.size (q.alloc - q.read) ≤ q.alloc - q.read := by
    simp only [min3]
    omega
  have hc2pos : 0 < min (count - min3 count q.size (q.alloc - q.read))
      (q.size - min3 count q.size (q.alloc - q.read)) →
      q.read + min3 count q.size (q.alloc - q.read) = q.alloc := by
    simp only [min3]
    omega
  generalize hgc1 : min3 count q.size (q.alloc - q.read) = c1
  rw [hgc1] at hoff hc1b hc2pos
  have hc2b : min (count - c1) (q.size - c1) ≤ count - c1 ∧
      min (count - c1) (q.size - c1) ≤ q.size - c1 := by
    omega
  generalize hgc2 : min (count - c1) (q.size - c1) = c2
  rw [hgc2] at hoff hc2pos hc2b
  have hout1 : (List.range c1).map (fun i => q.buffer (q.read + i)) =
      (List.range c1).map (fun i => pending.getD i 0) := by
    apply List.map_congr_left
    intro i hi
    rw [List.mem_range] at hi
    rw [← Nat.mod_eq_of_lt (show q.read + i < q.alloc by omega)]
    exact hbuf i (by omega)
  have hout2 : (List.range c2).map (fun i => q.buffer i) =
      (List.range c2).map (fun i => pending.getD (c1 + i) 0) := by
    apply List.map_congr_left
    intro i hi
    rw [List.mem_range] at hi
    have hra : q.read + c1 = q.alloc := hc2pos (by omega)
    have hb := hbuf (c1 + i) (by omega)
    rw [(show (q.read + (c1 + i)) % q.alloc = i by
      rw [← Nat.add_assoc, hra, Nat.add_mod_left, Nat.mod_eq_of_lt (by omega)])] at hb
    exact hb
  constructor
  · rw [hout1, hout2, ← hoff]
    rw [← range_map_getD_take (show c1 + c2 ≤ pending.length by omega)]
    rw [List.range_add, List.map_append, List.map_map]
    rfl
  · refine ⟨h0, ?_, ?_, Nat.mod_lt _ h0, ?_, ?_⟩
    · dsimp only
      rw [List.length_drop]
      omega
    · dsimp only
      omega
    · dsimp only
      rw [Nat.mod_add_mod, hwr]
      congr 1
      omega
    · dsimp only
      intro i hi
      rw [Nat.mod_add_mod, Nat.add_assoc]
      rw [← hoff, drop_getD]
      exact hbuf ((c1 + c2) + i) (by omega)

theorem QueueInv_create {capacity : Nat} (h : 0 < capacity) :
    QueueInv (AtomicQueueCreate capacity) [] := by
  refine ⟨h, rfl, Nat.zero_le _, h, ?_, ?_⟩
  · show (0 : Nat) = (0 + 0) % capacity
    simp
  · intro i hi
    exact absurd hi (Nat.not_lt_zero i)

theorem runTrace_alloc (ops : List QueueOp) : ∀ q : AtomicQueue,
    (runTrace q ops).1.alloc = q.alloc := by
  induction ops with
  | nil => intro q; rfl
  | cons op ops ih =>
    intro q
    cases op with
    | write bytes =>
      simp only [runTrace]
      rw [ih]
      rfl
    | read count =>
      simp only [runTrace]
      rw [ih]
      rfl

theorem runTrace_inv (ops : List QueueOp) : ∀ (q : AtomicQueue) (pending : List Nat),
    QueueInv q pending →
    ∃ pending1, QueueInv (runTrace q ops).1 pending1 ∧
      pending ++ (runTrace q ops).2.1 = (runTrace q ops).2.2 ++ pending1 := by
  induction ops with
  | nil =>
    intro q pending hinv
    exact ⟨pending, hinv, by simp [runTrace]⟩
  | cons op ops ih =>
    intro q pending hinv
    cases op with
    | write bytes =>
      obtain ⟨hcount, hinv1⟩ := AtomicQueueWrite_spec bytes hinv
      obtain ⟨p1, hi1, he1⟩ := ih _ _ hinv1
      refine ⟨p1, ?_, ?_⟩
      · simp only [runTrace]
        exact hi1
      · simp only [runTrace]
        rw [hcount, ← List.append_assoc]
        exact he1
    | read count =>
      obtain ⟨hout, hinv1⟩ := AtomicQueueRead_spec count hinv
      obtain ⟨p1, hi1, he1⟩ := ih _ _ hinv1
      refine ⟨p1, ?_, ?_⟩
      · simp only [runTrace]
        exact hi1
      · simp only [runTrace]
        rw [hout, List.append_assoc, ← he1]
        rw [← List.append_assoc, List.take_append_drop]

/-- **C5** (audio ring correctness): for every interleaving of SPSC
`write(a_i)` and `read(b_j)` operations on a freshly created ring of
positive capacity, at the final observation point the concatenation of all
bytes returned by reads is a prefix of the concatenation of all bytes
accepted by writes, the totals satisfy `W = R + size` (so `W - R = size`),
and `0 ≤ size ≤ capacity`; moreover at every intermediate state satisfying
the ring invariant a write accepts exactly `min(requested, capacity - size)`
bytes and a read returns exactly `min(requested, size)` bytes. -/
theorem audio_ring_correctness (capacity : Nat) (hcap : 0 < capacity)
    (ops : List QueueOp) :
    (∀ qf W R, runTrace (AtomicQueueCreate capacity) ops = (qf, W, R) →
       R <+: W ∧ W.length = R.length + qf.size ∧ qf.size ≤ capacity) ∧
    (∀ (q : AtomicQueue) (pending : List Nat) (src : List Nat),
       QueueInv q pending →
       (AtomicQueueWrite q src).1 = min src.length (q.alloc - q.size)) ∧
    (∀ (q : AtomicQueue) (pending : List Nat) (count : Nat),
       QueueInv q pending →
       ((AtomicQueueRead q count).1).length = min count q.size) := by
  refine ⟨?_, ?_, ?_⟩
  · intro qf W R hrun
    obtain ⟨p1, hi1, he1⟩ := runTrace_inv ops _ [] (QueueInv_create hcap)
    rw [hrun] at hi1 he1
    dsimp only at hi1 he1
    simp only [List.nil_append] at he1
    obtain ⟨h0, hsz, hszcap, -, -, -⟩ := hi1
    have halloc : qf.alloc = capacity := by
      have h2 := runTrace_alloc ops (AtomicQueueCreate capacity)
      rw [hrun] at h2
      exact h2
    refine ⟨⟨p1, he1.symm⟩, ?_, ?_⟩
    · rw [he1, List.length_append, hsz]
    · omega
  · intro q pending src hinv
    exact (AtomicQueueWrite_spec src hinv).1
  · intro q pending count hinv
    have hr := (AtomicQueueRead_spec count hinv).1
    obtain ⟨h0, hsz, -, -, -, -⟩ := hinv
    rw [hr, List.length_take]
    omega

/-- Witness for C5: a concrete interleaving on a ring of capacity 4 —
write 5 bytes (4 accepted), read 2, write 2 more, read everything — from
which the theorem yields the prefix property, and the step facts are
checked on the initial state. -/
theorem audio_ring_correctness_witness :
    0 < 4 ∧
    (runTrace (AtomicQueueCreate 4)
        [QueueOp.write [1, 2, 3, 4, 5], QueueOp.read 2,
         QueueOp.write [6, 7], QueueOp.read 10]).2.2 <+:
      (runTrace (AtomicQueueCreate 4)
        [QueueOp.write [1, 2, 3, 4, 5], QueueOp.read 2,
         QueueOp.write [6, 7], QueueOp.read 10]).2.1 ∧
    (AtomicQueueWrite (AtomicQueueCreate 4) [1, 2, 3, 4, 5]).1 = 4 ∧
    ((AtomicQueueRead (AtomicQueueCreate 4) 3).1).length = 0 := by
  refine ⟨by decide, ?_, ?_, ?_⟩
  · obtain ⟨hpre, -, -⟩ :=
      (audio_ring_correctness 4 (by decide)
        [QueueOp.write [1, 2, 3, 4, 5], QueueOp.read 2,
         QueueOp.write [6, 7], QueueOp.read 10]).1
        (runTrace (AtomicQueueCreate 4)
          [QueueOp.write [1, 2, 3, 4, 5], QueueOp.read 2,
           QueueOp.write [6, 7], QueueOp.read 10]).1
        (runTrace (AtomicQueueCreate 4)
          [QueueOp.write [1, 2, 3, 4, 5], QueueOp.read 2,
           QueueOp.write [6, 7], QueueOp.read 10]).2.1
        (runTrace (AtomicQueueCreate 4)
          [QueueOp.write [1, 2, 3, 4, 5], QueueOp.read 2,
           QueueOp.write [6, 7], QueueOp.read 10]).2.2 rfl
    exact hpre
  · have h := (audio_ring_correctness 4 (by decide) []).2.1
      (AtomicQueueCreate 4) [] [1, 2, 3, 4, 5] (QueueInv_create (by decide))
    rw [h]
    decide
  · have h := (audio_ring_correctness 4 (by decide) []).2.2
      (AtomicQueueCreate 4) [] 3 (QueueInv_create (by decide))
    rw [h]
    decide

end Receiver

namespace Receiver

/-- Modelled from the spec: the packed framed-record header
`{type: u8, flags: u8, latency: u64, size: u32}` is 14 bytes
(`proto.h` is the shared protocol definition referenced by `main.c`). -/
def protoHeaderSize : Nat := 14

/-- Modelled from the spec: record type 1 is `misc`. -/
def PROTO_TYPE_MISC : Nat := 1

/-- Modelled from the spec: record type 2 is `video`. -/
def PROTO_TYPE_VIDEO : Nat := 2

/-- Modelled from the spec: record type 3 is `audio`. -/
def PROTO_TYPE_AUDIO : Nat := 3

/-- Modelled from the spec: the `size` field of the header at the front of
`buf` — a little-endian `u32` at offset 10. -/
def protoSize (buf : List Nat) : Nat :=
  buf.getD 10 0 + 256 * buf.getD 11 0 + 65536 * buf.getD 12 0 +
    16777216 * buf.getD 13 0

/-- Modelled from the spec: the wire encoding of one framed record —
`type` and `flags` as single bytes, `latency` as little-endian `u64`,
`size = payload.length` as little-endian `u32`, then the payload. -/
def encodeProto (t f l : Nat) (payload : List Nat) : List Nat :=
  t % 256 :: f % 256 ::
  l % 256 :: l / 256 % 256 :: l / 65536 % 256 :: l / 16777216 % 256 ::
  l / 4294967296 % 256 :: l / 1099511627776 % 256 ::
  l / 281474976710656 % 256 :: l / 72057594037927936 % 256 ::
  payload.length % 256 :: payload.length / 256 % 256 ::
  payload.length / 65536 % 256 :: payload.length / 16777216 % 256 :: payload

/-- A stream of framed records laid out back to back. -/
def encodeProtoStream : List (Nat × Nat × Nat × List Nat) → List Nat
  | [] => []
  | r :: rs => encodeProto r.1 r.2.1 r.2.2.1 r.2.2.2 ++ encodeProtoStream rs

/-- The `again:` loop of `DemuxProtoStream` (main.c:263-278): while the
buffer holds a complete header and `size` payload bytes, dispatch the record
(the switch handles `PROTO_TYPE_VIDEO` by calling `HandleVideoStream`,
whose failure aborts the demuxer with `false`, modelled as `none`), then
discard `sizeof(struct Proto) + size` bytes and loop.  Emitted records are
returned in order as `(type, flags, payload)` triples.  The fuel is
`buf.length + 1` at the top entry; each iteration discards at least the
14-byte header from the buffer, so the fuel is never the binding
constraint. -/
def demuxAux (handleVideo : Nat → List Nat → Bool) :
    Nat → List Nat → Option (List (Nat × Nat × List Nat) × List Nat)
  | 0, buf => some ([], buf)
  | fuel + 1, buf =>
    if buf.length < protoHeaderSize then some ([], buf)
    else
      let size := protoSize buf
      if buf.length < protoHeaderSize + size then some ([], buf)
      else
        let ptype := buf.getD 0 0
        let pflags := buf.getD 1 0
        let payload := (buf.drop protoHeaderSize).take size
        if ptype = PROTO_TYPE_VIDEO ∧ handleVideo pflags payload = false then
          none
        else
          match demuxAux handleVideo fuel (buf.drop (protoHeaderSize + size)) with
          | none => none
          | some (recs, rest) => some ((ptype, pflags, payload) :: recs, rest)

/-- `DemuxProtoStream` after the socket read appended to the buffer. -/
def DemuxProtoStream (handleVideo : Nat → List Nat → Bool) (buf : List Nat) :
    Option (List (Nat × Nat × List Nat) × List Nat) :=
  demuxAux handleVideo (buf.length + 1) buf

end Receiver

namespace Receiver

theorem encodeProto_length (t f l : Nat) (p : List Nat) :
    (encodeProto t f l p).length = 14 + p.length := by
  simp [encodeProto]
  omega

theorem encodeProtoStream_length_ge (records : List (Nat × Nat × Nat × List Nat)) :
    records.length ≤ (encodeProtoStream records).length := by
  induction records with
  | nil => simp [encodeProtoStream]
  | cons r rs ih =>
    simp only [encodeProtoStream, List.length_append, List.length_cons]
    rw [encodeProto_length]
    omega

theorem protoSize_encode (t f l : Nat) (p : List Nat) (tail : List Nat)
    (h : p.length < 4294967296) :
    protoSize (encodeProto t f l p ++ tail) = p.length := by
  simp [protoSize, encodeProto]
  omega

theorem encodeProto_drop14 (t f l : Nat) (p : List Nat) (tail : List Nat) :
    (encodeProto t f l p ++ tail).drop protoHeaderSize = p ++ tail := by
  simp [encodeProto, protoHeaderSize]

end Receiver

namespace Receiver

theorem encodeProto_getD0 (t f l : Nat) (p : List Nat) (tail : List Nat) :
    (encodeProto t f l p ++ tail).getD 0 0 = t % 256 := by
  simp [encodeProto]

theorem encodeProto_getD1 (t f l : Nat) (p : List Nat) (tail : List Nat) :
    (encodeProto t f l p ++ tail).getD 1 0 = f % 256 := by
  simp [encodeProto]

theorem encodeProto_drop_all (t f l : Nat) (p : List Nat) (tail : List Nat) :
    (encodeProto t f l p ++ tail).drop (protoHeaderSize + p.length) = tail := by
  rw [(show protoHeaderSize + p.length = (encodeProto t f l p).length by
    rw [encodeProto_length]; rfl)]
  exact List.drop_left _ _

theorem demuxAux_encode (handleVideo : Nat → List Nat → Bool)
    (records : List (Nat × Nat × Nat × List Nat)) :
    ∀ (fuel : Nat) (rest : List Nat),
    (∀ r ∈ records, r.2.2.2.length < 4294967296) →
    (∀ r ∈ records, r.1 % 256 = PROTO_TYPE_VIDEO →
      handleVideo (r.2.1 % 256) r.2.2.2 = true) →
    (rest.length < protoHeaderSize ∨
      rest.length < protoHeaderSize + protoSize rest) →
    records.length < fuel →
    demuxAux handleVideo fuel (encodeProtoStream records ++ rest) =
      some (records.map (fun r => (r.1 % 256, r.2.1 % 256, r.2.2.2)), rest) := by
  induction records with
  | nil =>
    intro fuel rest _ _ hrest hfuel
    obtain ⟨k, rfl⟩ : ∃ k, fuel = k + 1 := ⟨fuel - 1, by omega⟩
    simp only [encodeProtoStream, List.nil_append, demuxAux, List.map_nil]
    by_cases h14 : rest.length < protoHeaderSize
    · rw [if_pos h14]
    · rw [if_neg h14]
      rw [if_pos (hrest.resolve_left h14)]
  | cons r rs ih =>
    obtain ⟨t, f, l, p⟩ := r
    intro fuel rest hlen hhandle hrest hfuel
    obtain ⟨k, rfl⟩ : ∃ k, fuel = k + 1 := ⟨fuel - 1, by omega⟩
    have hp : p.length < 4294967296 := hlen _ (List.mem_cons_self _ _)
    simp only [encodeProtoStream, List.map_cons]
    rw [List.append_assoc]
    simp only [demuxAux]
    rw [protoSize_encode t f l p _ hp]
    rw [encodeProto_drop14, encodeProto_drop_all, encodeProto_getD0,
      encodeProto_getD1, List.take_left]
    rw [if_neg (by
      rw [List.length_append, encodeProto_length]
      simp only [protoHeaderSize]
      omega)]
    rw [if_neg (by
      rw [List.length_append, encodeProto_length]
      simp only [protoHeaderSize]
      omega)]
    rw [if_neg (by
      rintro ⟨hv, hfalse⟩
      rw [hhandle _ (List.mem_cons_self _ _) hv] at hfalse
      exact Bool.noConfusion hfalse)]
    rw [ih k rest (fun r hr => hlen r (List.mem_cons_of_mem _ hr))
      (fun r hr => hhandle r (List.mem_cons_of_mem _ hr)) hrest
      (by simp only [List.length_cons] at hfuel; omega)]

/-- **C6** (demux framing): when the receive buffer consists of a sequence
of complete framed records followed by a trailing fragment too short to
contain a full header-plus-payload, `DemuxProtoStream` dispatches exactly
those records, whole and in arrival order, each dispatch consuming
`sizeof(struct Proto) + size` bytes, and leaves the trailing fragment in
the buffer unchanged (provided the video handler succeeds on every video
record — its failure aborts the demuxer). -/
theorem demux_framing (handleVideo : Nat → List Nat → Bool)
    (records : List (Nat × Nat × Nat × List Nat)) (rest : List Nat)
    (hlen : ∀ r ∈ records, r.2.2.2.length < 4294967296)
    (hhandle : ∀ r ∈ records, r.1 % 256 = PROTO_TYPE_VIDEO →
      handleVideo (r.2.1 % 256) r.2.2.2 = true)
    (hrest : rest.length < protoHeaderSize ∨
      rest.length < protoHeaderSize + protoSize rest) :
    DemuxProtoStream handleVideo (encodeProtoStream records ++ rest) =
      some (records.map (fun r => (r.1 % 256, r.2.1 % 256, r.2.2.2)), rest) := by
  apply demuxAux_encode handleVideo records _ rest hlen hhandle hrest
  have h := encodeProtoStream_length_ge records
  rw [List.length_append]
  omega

/-- Witness for C6: a video record with a one-byte payload followed by a
misc record with a three-byte payload and a two-byte trailing fragment. -/
theorem demux_framing_witness :
    (∀ r ∈ ([(2, 1, 5, [171]), (1, 0, 7, [1, 2, 3])] :
        List (Nat × Nat × Nat × List Nat)), r.2.2.2.length < 4294967296) ∧
    (([2, 0] : List Nat).length < protoHeaderSize ∨
      ([2, 0] : List Nat).length < protoHeaderSize + protoSize [2, 0]) ∧
    DemuxProtoStream (fun _ _ => true)
        (encodeProtoStream [(2, 1, 5, [171]), (1, 0, 7, [1, 2, 3])] ++ [2, 0]) =
      some ([(2, 1, [171]), (1, 0, [1, 2, 3])], [2, 0]) := by
  refine ⟨by decide, by decide, ?_⟩
  rw [demux_framing (fun _ _ => true) [(2, 1, 5, [171]), (1, 0, 7, [1, 2, 3])]
    [2, 0] (by decide) (by decide) (by decide)]
  decide

end Receiver

namespace Receiver

/-- Modelled from the spec: the demuxer's per-keyframe statistics state for
heartbeat (`misc`) echoes — a rolling sum of observed pings and the sample
count. -/
structure PingStats where
  ping_sum : Nat
  ping_count : Nat
deriving DecidableEq

/-- Modelled from the spec: handling one received record of type `misc` —
the payload is a single `u64` origin timestamp, `ping = now - payload`
is added to the rolling sum and the sample count is incremented. -/
def HandleMiscStream (stats : PingStats) (now payload : Nat) : PingStats :=
  { ping_sum := stats.ping_sum + (now - payload),
    ping_count := stats.ping_count + 1 }

/-- A sequence of `misc` echoes, each observed at local time `now` carrying
origin timestamp `payload`, folded through the handler. -/
def runMiscEchoes (stats : PingStats) : List (Nat × Nat) → PingStats
  | [] => stats
  | (now, payload) :: rest => runMiscEchoes (HandleMiscStream stats now payload) rest

/-- Modelled from the spec: the rolling average published with the
per-keyframe statistics is `ping_sum / ping_count`. -/
def pingAverage (stats : PingStats) : Nat := stats.ping_sum / stats.ping_count

end Receiver

namespace Receiver

theorem runMiscEchoes_acc (echoes : List (Nat × Nat)) : ∀ s c : Nat,
    runMiscEchoes ⟨s, c⟩ echoes =
      ⟨s + (echoes.map (fun e => e.1 - e.2)).sum, c + echoes.length⟩ := by
  induction echoes with
  | nil =>
    intro s c
    simp [runMiscEchoes]
  | cons e rest ih =>
    obtain ⟨now, payload⟩ := e
    intro s c
    simp only [runMiscEchoes, HandleMiscStream, List.map_cons, List.sum_cons,
      List.length_cons]
    rw [ih]
    refine congrArg₂ PingStats.mk ?_ ?_ <;> omega

/-- **C7** (misc ping rolling average): starting from zeroed statistics,
after any sequence of `misc` echoes the rolling sum is the sum of the
observed pings `now - payload`, the sample count is the number of echoes,
and (once at least one echo arrived) the published rolling average is the
arithmetic mean of the observed pings. -/
theorem misc_ping_average (echoes : List (Nat × Nat)) (h : echoes ≠ []) :
    (runMiscEchoes ⟨0, 0⟩ echoes).ping_sum =
      (echoes.map (fun e => e.1 - e.2)).sum ∧
    (runMiscEchoes ⟨0, 0⟩ echoes).ping_count = echoes.length ∧
    pingAverage (runMiscEchoes ⟨0, 0⟩ echoes) =
      (echoes.map (fun e => e.1 - e.2)).sum / echoes.length := by
  rw [runMiscEchoes_acc echoes 0 0]
  refine ⟨by simp, by simp, ?_⟩
  simp [pingAverage]

/-- Witness for C7: three echoes with pings 30, 50 and 10 give sum 90,
count 3 and average 30. -/
theorem misc_ping_average_witness :
    ([(100, 70), (200, 150), (300, 290)] : List (Nat × Nat)) ≠ [] ∧
    (runMiscEchoes ⟨0, 0⟩ [(100, 70), (200, 150), (300, 290)]).ping_sum = 90 ∧
    (runMiscEchoes ⟨0, 0⟩ [(100, 70), (200, 150), (300, 290)]).ping_count = 3 ∧
    pingAverage (runMiscEchoes ⟨0, 0⟩ [(100, 70), (200, 150), (300, 290)]) = 30 := by
  refine ⟨by decide, ?_⟩
  obtain ⟨h1, h2, h3⟩ := misc_ping_average [(100, 70), (200, 150), (300, 290)]
    (by decide)
  rw [h1, h2, h3]
  refine ⟨by decide, by decide, by decide⟩

end Receiver

namespace Receiver

/-- The engine's channel-count limit `SPA_AUDIO_MAX_CHANNELS` (spa header). -/
def SPA_AUDIO_MAX_CHANNELS : Nat := 64

/-- The 35 channel names of `kChannelMap` in `LookupChannel`
(audio.c:42-62), in table order. -/
def kChannelNames : List (List Char) :=
  ["FL".toList,
    "FR".toList,
    "FC".toList,
    "LFE".toList,
    "SL".toList,
    "SR".toList,
    "FLC".toList,
    "FRC".toList,
    "RC".toList,
    "RL".toList,
    "RR".toList,
    "TC".toList,
    "TFL".toList,
    "TFC".toList,
    "TFR".toList,
    "TRL".toList,
    "TRC".toList,
    "TRR".toList,
    "RLC".toList,
    "RRC".toList,
    "FLW".toList,
    "FRW".toList,
    "LFE2".toList,
    "FLH".toList,
    "FCH".toList,
    "FRH".toList,
    "TFLC".toList,
    "TFRC".toList,
    "TSL".toList,
    "TSR".toList,
    "LLFE".toList,
    "RLFE".toList,
    "BC".toList,
    "BLC".toList,
    "BRC".toList]

/-- `LookupChannel` (audio.c:42-62): `strcmp` of `name` against each table
entry; returns whether some entry matches.  The associated
`spa_audio_channel` value written through the out-parameter plays no role
in parse success and is not modelled. -/
def LookupChannel (name : List Char) : Bool := decide (name ∈ kChannelNames)

/-- The character loop of `ParseChannelMap` (audio.c:64-86): `minibuf`
holds the characters of the current channel name (at most 4 plus the
terminator), `counter` the channels accepted so far.  At a `,` or at the
terminating NUL the accumulated name is looked up (after checking the
`SPA_AUDIO_MAX_CHANNELS` bound); a fifth character of a name overflows
`minibuf` and fails; NUL returns the final count. -/
def ParseChannelMapAux : List Char → List Char → Nat → Nat
  | [], minibuf, counter =>
    if counter = SPA_AUDIO_MAX_CHANNELS then 0
    else if LookupChannel minibuf then counter + 1 else 0
  | c :: rest, minibuf, counter =>
    if c = ',' then
      if counter = SPA_AUDIO_MAX_CHANNELS then 0
      else if LookupChannel minibuf then ParseChannelMapAux rest [] (counter + 1)
      else 0
    else
      if minibuf.length = 4 then 0
      else ParseChannelMapAux rest (minibuf ++ [c]) counter

/-- `ParseChannelMap` (audio.c:64-86): returns the channel count, or 0 on
any failure. -/
def ParseChannelMap (channel_map : List Char) : Nat :=
  ParseChannelMapAux channel_map [] 0

/-- The digit-accumulation loop of C `atoi`. -/
def atoiDigits : List Char → Nat → Nat
  | [], acc => acc
  | c :: rest, acc =>
    if '0' ≤ c ∧ c ≤ '9' then atoiDigits rest (acc * 10 + (c.toNat - 48))
    else acc

/-- C `atoi` as used by `ParseAudioConfig` (audio.c:90): skip C-locale
whitespace, optional sign, then a maximal digit prefix (0 if none);
`int` overflow, undefined in C, is not modelled — it cannot produce
44100 or 48000 from an in-range-checked rate. -/
def atoi (s : List Char) : Int :=
  let s1 := s.dropWhile (fun c =>
    c = ' ' ∨ c = '\t' ∨ c = '\n' ∨ c = '\x0b' ∨ c = '\x0c' ∨ c = '\r')
  match s1 with
  | '-' :: rest => -(atoiDigits rest 0 : Int)
  | '+' :: rest => (atoiDigits rest 0 : Int)
  | _ => (atoiDigits s1 0 : Int)

/-- `strchr(audio_config, ':')` followed by `channel_map++`
(audio.c:96-101): the suffix after the first `:`, if any. -/
def afterColon : List Char → Option (List Char)
  | [] => none
  | c :: rest => if c = ':' then some rest else afterColon rest

/-- `ParseAudioConfig` (audio.c:88-115): `atoi` of the whole string must
give 44100 or 48000, a `:` must be present, and the channel map after it
must parse to a nonzero count; on success the sample rate and channel
count reach the stream parameters. -/
def ParseAudioConfig (audio_config : List Char) : Option (Nat × Nat) :=
  let sample_rate := atoi audio_config
  if sample_rate ≠ 44100 ∧ sample_rate ≠ 48000 then none
  else
    match afterColon audio_config with
    | none => none
    | some channel_map =>
      let channels := ParseChannelMap channel_map
      if channels = 0 then none else some (sample_rate.toNat, channels)

/-- Split at every `,`; the first component is the first token, the second
the remaining tokens (a string with `n` commas yields `n + 1` tokens). -/
def splitCommaFst : List Char → List Char × List (List Char)
  | [] => ([], [])
  | c :: rest =>
    if c = ',' then ([], (splitCommaFst rest).1 :: (splitCommaFst rest).2)
    else (c :: (splitCommaFst rest).1, (splitCommaFst rest).2)

/-- All comma-separated tokens of a string. -/
def splitComma (cs : List Char) : List (List Char) :=
  (splitCommaFst cs).1 :: (splitCommaFst cs).2

/-- The claim's literal reading of a valid configuration: the text before
the first `:` is exactly `44100` or `48000`, and what follows is a
comma-separated list of at most `SPA_AUDIO_MAX_CHANNELS` valid channel
names (the list always has at least one token). -/
def SpecAudioConfigValid (s : List Char) : Bool :=
  (s.take 6 = "44100:".toList ∨ s.take 6 = "48000:".toList) ∧
  ((splitComma (s.drop 6)).length ≤ SPA_AUDIO_MAX_CHANNELS ∧
    (splitComma (s.drop 6)).all LookupChannel)

end Receiver

namespace Receiver

/-- **C9 counterexample**: `ParseAudioConfig` accepts `"48000x:FL"` —
`atoi` stops at the `x` and returns 48000 — although the text before the
first `:` is not a sample rate, so parsing does not succeed *exactly* on
the claimed well-formed configurations. -/
theorem audio_config_counterexample :
    (ParseAudioConfig ("48000x:FL".toList)).isSome = true ∧
    SpecAudioConfigValid ("48000x:FL".toList) = false := by
  decide

end Receiver

namespace Receiver

theorem LookupChannel_length {name : List Char}
    (h : LookupChannel name = true) : name.length ≤ 4 := by
  rw [LookupChannel, decide_eq_true_iff] at h
  fin_cases h <;> decide

theorem ParseChannelMapAux_spec (cs : List Char) :
    ∀ (minibuf : List Char) (counter : Nat), counter ≤ 64 →
    ParseChannelMapAux cs minibuf counter =
      if LookupChannel (minibuf ++ (splitCommaFst cs).1) = true ∧
         (splitCommaFst cs).2.all LookupChannel = true ∧
         counter + 1 + (splitCommaFst cs).2.length ≤ 64
      then counter + 1 + (splitCommaFst cs).2.length
      else 0 := by
  induction cs with
  | nil =>
    intro minibuf counter hc
    simp only [ParseChannelMapAux, splitCommaFst, List.append_nil, List.all_nil,
      List.length_nil, SPA_AUDIO_MAX_CHANNELS]
    by_cases h64 : counter = 64
    · rw [if_pos h64, if_neg (by rintro ⟨-, -, h3⟩; omega)]
    · rw [if_neg h64]
      by_cases hlk : LookupChannel minibuf = true
      · rw [if_pos hlk, if_pos ⟨hlk, by trivial, by omega⟩]
      · rw [if_neg hlk, if_neg (by rintro ⟨h1, -, -⟩; exact hlk h1)]
  | cons c rest ih =>
    intro minibuf counter hc
    by_cases hcomma : c = ','
    · subst hcomma
      simp only [ParseChannelMapAux, splitCommaFst]
      rw [if_pos (trivial : True)]
      rw [if_pos (trivial : True)]
      simp only [SPA_AUDIO_MAX_CHANNELS, List.append_nil, List.all_cons,
        List.length_cons, Bool.and_eq_true]
      by_cases h64 : counter = 64
      · rw [if_pos h64, if_neg (by rintro ⟨-, -, h3⟩; omega)]
      · rw [if_neg h64]
        by_cases hlk : LookupChannel minibuf = true
        · rw [if_pos hlk, ih [] (counter + 1) (by omega)]
          simp only [List.nil_append]
          by_cases hrest : LookupChannel (splitCommaFst rest).1 = true ∧
              (splitCommaFst rest).2.all LookupChannel = true ∧
              counter + 1 + 1 + (splitCommaFst rest).2.length ≤ 64
          · rw [if_pos hrest, if_pos ⟨hlk, ⟨hrest.1, hrest.2.1⟩, by omega⟩]
            omega
          · rw [if_neg hrest, if_neg (by
              rintro ⟨-, hall, hle⟩
              exact hrest ⟨hall.1, hall.2, by omega⟩)]
        · rw [if_neg hlk, if_neg (by rintro ⟨h1, -, -⟩; exact hlk h1)]
    · simp only [ParseChannelMapAux, splitCommaFst]
      rw [if_neg hcomma, if_neg hcomma]
      by_cases hfull : minibuf.length = 4
      · rw [if_pos hfull, if_neg (by
          rintro ⟨h1, -, -⟩
          have h2 := LookupChannel_length h1
          simp only [List.length_append, List.length_cons] at h2
          omega)]
      · rw [if_neg hfull, ih (minibuf ++ [c]) counter hc]
        simp only [List.append_assoc, List.cons_append, List.nil_append]

theorem ParseChannelMap_eq (cs : List Char) :
    ParseChannelMap cs =
      if (splitComma cs).all LookupChannel = true ∧
         (splitComma cs).length ≤ SPA_AUDIO_MAX_CHANNELS
      then (splitComma cs).length
      else 0 := by
  rw [ParseChannelMap, ParseChannelMapAux_spec cs [] 0 (by omega)]
  simp only [List.nil_append, splitComma, List.all_cons, List.length_cons,
    SPA_AUDIO_MAX_CHANNELS, Bool.and_eq_true]
  by_cases h : LookupChannel (splitCommaFst cs).1 = true ∧
      (splitCommaFst cs).2.all LookupChannel = true ∧
      0 + 1 + (splitCommaFst cs).2.length ≤ 64
  · rw [if_pos h, if_pos ⟨⟨h.1, h.2.1⟩, by omega⟩]
    omega
  · rw [if_neg h, if_neg (by
      rintro ⟨⟨h1, h2⟩, h3⟩
      exact h ⟨h1, h2, by omega⟩)]

end Receiver

namespace Receiver

/-- **C9 amended**: `ParseAudioConfig` succeeds exactly when C `atoi` of
the configuration returns 44100 or 48000 (a digit prefix suffices — the
rate text need not be exactly the number, which refutes the claim's
"consists of" reading), a `:` is present, and the text after the first `:`
splits on `,` into at most `SPA_AUDIO_MAX_CHANNELS` tokens, every one of
which is one of the 35 fixed channel names. -/
theorem audio_config_parse_iff (s : List Char) :
    (ParseAudioConfig s).isSome = true ↔
      ((atoi s = 44100 ∨ atoi s = 48000) ∧
       ∃ channel_map, afterColon s = some channel_map ∧
         (splitComma channel_map).length ≤ SPA_AUDIO_MAX_CHANNELS ∧
         (splitComma channel_map).all LookupChannel = true) := by
  rw [ParseAudioConfig]
  dsimp only
  by_cases hrate : atoi s ≠ 44100 ∧ atoi s ≠ 48000
  · rw [if_pos hrate]
    simp only [Option.isSome_none, Bool.false_eq_true, false_iff]
    rintro ⟨hr, -⟩
    rcases hr with hr | hr
    · exact hrate.1 hr
    · exact hrate.2 hr
  · rw [if_neg hrate]
    have hr2 : atoi s = 44100 ∨ atoi s = 48000 := by tauto
    cases hac : afterColon s with
    | none =>
      simp only [Option.isSome_none, Bool.false_eq_true, false_iff]
      rintro ⟨-, cm, hcm, -⟩
      exact Option.noConfusion hcm
    | some cm =>
      dsimp only
      rw [ParseChannelMap_eq]
      by_cases hvalid : (splitComma cm).all LookupChannel = true ∧
          (splitComma cm).length ≤ SPA_AUDIO_MAX_CHANNELS
      · rw [if_pos hvalid, if_neg (by simp [splitComma])]
        simp only [Option.isSome_some, true_iff]
        exact ⟨hr2, cm, rfl, hvalid.2, hvalid.1⟩
      · rw [if_neg hvalid, if_pos rfl]
        simp only [Option.isSome_none, Bool.false_eq_true, false_iff]
        rintro ⟨-, cm2, hcm2, hlen2, hall2⟩
        rw [Option.some.injEq] at hcm2
        subst hcm2
        exact hvalid ⟨hall2, hlen2⟩

/-- Witness for C9 (amended): the configuration `"48000:FL,FR"` parses. -/
theorem audio_config_parse_iff_witness :
    (ParseAudioConfig ("48000:FL,FR".toList)).isSome = true := by
  rw [audio_config_parse_iff]
  exact ⟨by decide, "FL,FR".toList, by decide, by decide, by decide⟩

end Receiver

namespace Receiver

/-- The fixed 256-entry evdev-to-HID usage translation table
`evdev_to_hid` (input.c), 0 where no mapping exists. -/
def evdev_to_hid : List Nat :=
  [0, 41, 30, 31, 32, 33, 34, 35, 36, 37, 38, 39,
   45, 46, 42, 43, 20, 26, 8, 21, 23, 28, 24, 12,
   18, 19, 47, 48, 40, 224, 4, 22, 7, 9, 10, 11,
   13, 14, 15, 51, 52, 53, 225, 49, 29, 27, 6, 25,
   5, 17, 16, 54, 55, 56, 229, 85, 226, 44, 57, 58,
   59, 60, 61, 62, 63, 64, 65, 66, 67, 83, 71, 95,
   96, 97, 86, 92, 93, 94, 87, 89, 90, 91, 98, 99,
   0, 148, 100, 68, 69, 135, 146, 147, 138, 136, 139, 0,
   88, 228, 84, 70, 230, 0, 74, 82, 75, 80, 79, 77,
   81, 78, 73, 76, 0, 127, 129, 128, 102, 103, 215, 72,
   0, 133, 144, 145, 137, 227, 231, 101, 0, 121, 0, 122,
   119, 124, 116, 125, 126, 123, 117, 0, 0, 0, 0, 0,
   0, 0, 0, 0, 0, 0, 0, 0, 0, 0, 0, 0,
   0, 0, 0, 0, 0, 0, 0, 0, 0, 0, 0, 0,
   0, 0, 0, 0, 0, 0, 0, 0, 0, 0, 0, 182,
   183, 0, 0, 104, 105, 106, 107, 108, 109, 110, 111, 112,
   113, 114, 115, 0, 0, 0, 0, 0, 0, 0, 0, 0,
   0, 0, 0, 0, 0, 0, 0, 0, 0, 0, 0, 0,
   0, 0, 0, 0, 0, 0, 0, 0, 0, 0, 0, 0,
   0, 0, 0, 0, 0, 0, 0, 0, 0, 0, 0, 0,
   0, 0, 0, 0, 0, 0, 0, 0, 0, 0, 0, 0,
   0, 0, 0, 0]

/-- `BTN_LEFT` (linux input-event-codes). -/
def BTN_LEFT : Nat := 0x110

/-- `BTN_RIGHT` (linux input-event-codes). -/
def BTN_RIGHT : Nat := 0x111

/-- `BTN_MIDDLE` (linux input-event-codes). -/
def BTN_MIDDLE : Nat := 0x112

/-- `struct InputStream` (input.c): the 32-bit mouse-button state and the
four 64-bit words of the 256-bit keyboard state (the `fd` the reports are
drained to carries no state and is dropped; emitted reports are returned
explicitly instead). -/
structure InputStream where
  button_state : Nat
  key_state : List Nat
deriving DecidableEq

/-- `RecordKeyCode` (input.c): append one HID usage code to the keyboard
input report under construction (`data` bytes, current `size`); code 0 is
skipped, the first recorded code materialises the modifier byte, codes
`>= 0xe0` set a modifier bit (the `uint8_t` store keeps the low byte), and
at most six regular codes fit. -/
def RecordKeyCode (input2 : List Nat × Nat) (code : Nat) : List Nat × Nat :=
  if code = 0 then input2
  else
    let input2 := if input2.2 = 1 then (input2.1.set 1 0, 2) else input2
    if 0xe0 ≤ code then
      (input2.1.set 1 ((input2.1.getD 1 0 ||| (1 <<< (code - 0xe0))) % 256),
       input2.2)
    else if input2.2 < 8 then
      (input2.1.set input2.2 code, input2.2 + 1)
    else input2

/-- `InputStreamFormatKeyboard` (input.c): report id 1, then for each of
the 256 key-state bits in row-major order record the translated usage
code; the report is padded with zeroes to 8 bytes (positions past the
final size were never written, so they are already zero in the model). -/
def InputStreamFormatKeyboard (s : InputStream) : List Nat :=
  ((List.range 256).foldl
    (fun acc cc =>
      if s.key_state.getD (cc / 64) 0 / 2 ^ (cc % 64) % 2 = 1 then
        RecordKeyCode acc (evdev_to_hid.getD cc 0)
      else acc)
    ((List.replicate 8 0).set 0 1, 1)).1

/-- `InputStreamFormatMouse` (input.c): report id 2, button byte, little-
endian 16-bit `dx` and `dy`, wheel byte (bytes taken from the two's
complement representation via `Int.emod`, matching the C truncations and
arithmetic shift). -/
def InputStreamFormatMouse (s : InputStream) (dx dy wheel : Int) : List Nat :=
  [2, s.button_state % 256,
   (dx % 256).toNat, ((dx % 65536) / 256).toNat,
   (dy % 256).toNat, ((dy % 65536) / 256).toNat,
   (wheel % 256).toNat]

/-- `InputStreamKeyPress` (input.c:171-186): clear-then-set the key's bit
in its state word (`Nat.ldiff` is the `& ~(1 << shift)` of the 64-bit
word); if the word is unchanged return success immediately, otherwise
store it and drain a freshly formatted keyboard report (drain success is
modelled as emitting the report). -/
def InputStreamKeyPress (s : InputStream) (evdev_code : Nat)
    (pressed : Bool) : Bool × InputStream × List (List Nat) :=
  let key_state_row := evdev_code >>> 6 &&& 0x3
  let key_state_shift := evdev_code &&& 0x3f
  let old := s.key_state.getD key_state_row 0
  let key_state := old.ldiff (1 <<< key_state_shift) |||
    ((if pressed then 1 else 0) <<< key_state_shift)
  if key_state = old then (true, s, [])
  else
    let s1 := { s with key_state := s.key_state.set key_state_row key_state }
    (true, s1, [InputStreamFormatKeyboard s1])

/-- The switch of `InputStreamMouseButton` (input.c:214-230): left, right
and middle buttons map to bits 0-2; any other button has no mapping. -/
def mouseButtonShift (button : Nat) : Option Nat :=
  if button = BTN_LEFT then some 0
  else if button = BTN_RIGHT then some 1
  else if button = BTN_MIDDLE then some 2
  else none

/-- `InputStreamMouseButton` (input.c:212-241): unknown buttons are
ignored (success, no report); otherwise clear-then-set the button's bit in
the 32-bit state, return success immediately if unchanged, else store it
and drain a mouse report with zero motion. -/
def InputStreamMouseButton (s : InputStream) (button : Nat)
    (pressed : Bool) : Bool × InputStream × List (List Nat) :=
  match mouseButtonShift button with
  | none => (true, s, [])
  | some button_shift =>
    let button_state := s.button_state.ldiff (1 <<< button_shift) |||
      ((if pressed then 1 else 0) <<< button_shift)
    if button_state = s.button_state then (true, s, [])
    else
      let s1 := { s with button_state := button_state }
      (true, s1, [InputStreamFormatMouse s1 0 0 0])

end Receiver

namespace Receiver

theorem bit_update_noop {old sh : Nat} {pressed : Bool}
    (h : old.testBit sh = pressed) :
    old.ldiff (1 <<< sh) ||| ((if pressed then 1 else 0) <<< sh) = old := by
  apply Nat.eq_of_testBit_eq
  intro i
  rw [Nat.testBit_lor, Nat.testBit_ldiff, Nat.testBit_shiftLeft,
    Nat.testBit_shiftLeft]
  rw [(show (1 : Nat) = 2 ^ 0 from rfl), Nat.testBit_two_pow]
  by_cases hi : i = sh
  · subst hi
    cases pressed
    · simp [h]
    · simp [h]
  · by_cases hle : sh ≤ i
    · have h0 : ((0 : Nat) = i - sh) = False := by
        simp only [eq_iff_iff, iff_false]
        omega
      cases pressed <;> simp [hle, h0]
      intro hd
      rw [(show (1 : Nat) = 2 ^ 0 from rfl), Nat.testBit_two_pow] at hd
      exact absurd (of_decide_eq_true hd) (by omega)
    · cases pressed <;> simp [hle]

/-- **C10** (no-op input events): a key event whose pressed/released value
equals the bit already stored for that key in the 256-bit keyboard state
returns success with the state unchanged and no HID report emitted; a
mouse-button event for left/right/middle whose value equals the stored
button bit likewise returns success with no report; and a button the
switch does not map (anything other than left, right, middle) is ignored
entirely, also returning success with no report. -/
theorem input_noop_events :
    (∀ (s : InputStream) (evdev_code : Nat) (pressed : Bool),
       (s.key_state.getD (evdev_code >>> 6 &&& 0x3) 0).testBit
           (evdev_code &&& 0x3f) = pressed →
       InputStreamKeyPress s evdev_code pressed = (true, s, [])) ∧
    (∀ (s : InputStream) (button : Nat) (pressed : Bool) (sh : Nat),
       mouseButtonShift button = some sh →
       s.button_state.testBit sh = pressed →
       InputStreamMouseButton s button pressed = (true, s, [])) ∧
    (∀ (s : InputStream) (button : Nat) (pressed : Bool),
       mouseButtonShift button = none →
       InputStreamMouseButton s button pressed = (true, s, [])) := by
  refine ⟨?_, ?_, ?_⟩
  · intro s evdev_code pressed h
    rw [InputStreamKeyPress]
    dsimp only
    rw [bit_update_noop h, if_pos rfl]
  · intro s button pressed sh hsh h
    rw [InputStreamMouseButton, hsh]
    dsimp only
    rw [bit_update_noop h, if_pos rfl]
  · intro s button pressed hsh
    rw [InputStreamMouseButton, hsh]

/-- Witness for C10: pressing an already-pressed key (code 5, bit set in
word 0), pressing an already-pressed left button, and releasing the
unmapped button 0x113 all leave the state and output untouched. -/
theorem input_noop_events_witness :
    ((InputStream.mk 1 [32, 0, 0, 0]).key_state.getD (5 >>> 6 &&& 0x3) 0).testBit
        (5 &&& 0x3f) = true ∧
    InputStreamKeyPress (InputStream.mk 1 [32, 0, 0, 0]) 5 true =
      (true, InputStream.mk 1 [32, 0, 0, 0], []) ∧
    mouseButtonShift BTN_LEFT = some 0 ∧
    InputStreamMouseButton (InputStream.mk 1 [32, 0, 0, 0]) BTN_LEFT true =
      (true, InputStream.mk 1 [32, 0, 0, 0], []) ∧
    mouseButtonShift 0x113 = none ∧
    InputStreamMouseButton (InputStream.mk 1 [32, 0, 0, 0]) 0x113 false =
      (true, InputStream.mk 1 [32, 0, 0, 0], []) := by
  refine ⟨by decide, ?_, by decide, ?_, by decide, ?_⟩
  · exact input_noop_events.1 (InputStream.mk 1 [32, 0, 0, 0]) 5 true (by decide)
  · exact input_noop_events.2.1 (InputStream.mk 1 [32, 0, 0, 0]) BTN_LEFT true 0
      (by decide) (by decide)
  · exact input_noop_events.2.2 (InputStream.mk 1 [32, 0, 0, 0]) 0x113 false
      (by decide)

end Receiver
